import Mathlib

/-!
Verification of the referral-program ledger core.

This file contains a shallow embedding of the business-logic layer of the
referral program (rewards.js), its database access layer (repository.js,
over the `users` and `user_actions` tables of neon_schema.sql) and its
configuration constants (config.js), together with theorems about the
embedded operations.

Modelling conventions:
* The PostgreSQL state is a `DB` value: a list of `users` rows, a list of
  `user_actions` rows and the next value of the `user_id` SERIAL sequence.
  SQL `UPDATE ... WHERE` statements become `List.map` with a row test,
  `INSERT` becomes list append, and `SELECT ... = $1 ... rows[0]` becomes
  `List.find?`.  The UNIQUE constraints of the schema (`email`,
  `referral_code`) make the insert in `createUser` fallible.
* JavaScript `throw` becomes `Except.error` carrying the message string;
  every operation returns the pair of its result and the database state
  holding exactly the writes committed before the return or throw.
* External collaborators (Shopify discount creation, the customer
  total-spent lookup) are oracle parameters of the operations: a discount
  creation outcome is `Option`-valued, with `none` for the collaborator
  failure path, and the total-spent lookup is a rational input (its
  gateway catches its own errors and yields a number in all cases).
  Fire-and-forget collaborators (Klaviyo, discount deactivation) touch no
  modelled state and are omitted.
* Monetary amounts and the values parsed out of discount codes are
  rationals; point balances are integers.
-/

namespace Referral

/-- Reward tier record, the shape of one entry of `config.TIERS`: a tier
name, a minimum cumulative spend threshold, and a points-per-dollar rate. -/
structure Tier where
  name : String
  minSpent : ℚ
  pointsPerDollar : ℚ
deriving DecidableEq

/-- Row of the `users` table, restricted to the fields the ledger core
reads or writes. -/
structure User where
  user_id : Nat
  first_name : String
  email : String
  points : Int
  referral_code : String
  referred_by : Option String
  last_discount_code : Option String
  discount_code_id : Option String
  referral_count : Nat
  referal_discount_code : Option String
  tier : Option String
  total_spent : Option ℚ
deriving DecidableEq

/-- Row of the append-only `user_actions` table, restricted to the fields
the ledger core reads or writes. -/
structure Action where
  user_id : Nat
  action_type : String
  points_awarded : Int
  action_ref : Option String
deriving DecidableEq

/-- Database state: the two tables plus the `user_id` SERIAL sequence
(PostgreSQL SERIAL starts at 1). -/
structure DB where
  users : List User
  actions : List Action
  next_user_id : Nat
deriving DecidableEq

/-- The empty database, as created by neon_schema.sql. -/
def dbInit : DB := ⟨[], [], 1⟩

/-! ## Configuration constants (config.js) -/

def SIGNUP_POINTS : Int := 5

def REFERRER_SIGNUP_BONUS : Int := 5

def REFERRAL_BONUS_POINTS : Int := 1500

def STORE_URL : String := "https://www.hemlockandoak.com"

/-- Whitelist of allowed award actions and their point values
(`config.ALLOWED_ACTIONS`), as a lookup function on the 8 configured keys. -/
def ALLOWED_ACTIONS (a : String) : Option Int :=
  if a = "social_media_follow" then some 50
  else if a = "community_join" then some 50
  else if a = "facebook_like" then some 50
  else if a = "youtube_subscribe" then some 50
  else if a = "share" then some 5
  else if a = "instagram" then some 5
  else if a = "fb" then some 5
  else if a = "bonus" then some 5
  else none

/-- The property names a plain JavaScript object literal inherits from
`Object.prototype`.  For these, `config.ALLOWED_ACTIONS[key]` is an
inherited truthy value (a function, or `Object.prototype` itself for
`__proto__`) rather than `undefined`, so the truthiness gate
`!config.ALLOWED_ACTIONS[action]` does not fire. -/
def OBJECT_PROTOTYPE_KEYS : List String :=
  ["constructor", "hasOwnProperty", "isPrototypeOf", "propertyIsEnumerable",
   "toLocaleString", "toString", "valueOf", "__proto__", "__defineGetter__",
   "__defineSetter__", "__lookupGetter__", "__lookupSetter__"]

/-- One entry of `config.MILESTONE_REWARDS`. -/
structure MilestoneReward where
  name : String
  collectionId : String
deriving DecidableEq

/-- Milestone rewards keyed by referral count (`config.MILESTONE_REWARDS`). -/
def MILESTONE_REWARDS (m : Nat) : Option MilestoneReward :=
  if m = 5 then some ⟨"Free Notebook", "gid://shopify/Collection/410265616628"⟩
  else if m = 10 then some ⟨"Free Planner", "gid://shopify/Collection/423756136692"⟩
  else if m = 15 then some ⟨"Free Planner", "gid://shopify/Collection/423756136692"⟩
  else none

/-! ## Pure utility functions (rewards.js) -/

/-- Embedding of `getTierForSpent`: iterate from the last tier downwards and
return the first tier whose `minSpent` threshold is at most `totalSpent`;
otherwise fall back to `tiers[0]`.  On the empty list, JavaScript
`tiers[0]` is `undefined`, which we model as `none`.

The tier list itself (`config.TIERS`) is absent from the sources in this
repository (the config.js revision present defines the other constants but
no `TIERS`), so the list stays a parameter. -/
def getTierForSpent (tiers : List Tier) (totalSpent : ℚ) : Option Tier :=
  match tiers.reverse.find? (fun t => decide (t.minSpent ≤ totalSpent)) with
  | some t => some t
  | none => tiers.head?

/-- Embedding of `buildReferralUrl`. -/
def buildReferralUrl (referralCode : String) : String :=
  STORE_URL ++ "/pages/email-signup/?ref=" ++ referralCode

/-- Numeric value of a list of decimal digit characters. -/
def digitsToNat (ds : List Char) : Nat :=
  ds.foldl (fun n c => 10 * n + (c.toNat - 48)) 0

/-- Longest leading run of decimal digits of a character list, with the
remainder. -/
def takeDigits (cs : List Char) : List Char × List Char :=
  (cs.takeWhile Char.isDigit, cs.dropWhile Char.isDigit)

/-- Matching of the tail of the regular expression
`POINTS(\d+(?:\.\d+)?)CAD_` at a fixed position: `cs` is the text right
after an occurrence of `POINTS`; the result is the decimal value of the
captured group when the rest of the pattern matches here.  Backtracking is
not needed: after a maximal digit run the pattern can only continue with
`.` or `C`, which are not digits. -/
def matchPointsTail (cs : List Char) : Option ℚ :=
  let d1 := (takeDigits cs).1
  let rest1 := (takeDigits cs).2
  if d1.isEmpty then none
  else
    let intPart : ℚ := (digitsToNat d1 : ℚ)
    match rest1 with
    | '.' :: rest2 =>
      let d2 := (takeDigits rest2).1
      let rest3 := (takeDigits rest2).2
      if d2.isEmpty then
        -- the optional fraction group cannot match, and `CAD_` cannot
        -- start at `rest1` since `rest1` starts with a dot
        if ("CAD_".toList).isPrefixOf rest1 then some intPart else none
      else
        if ("CAD_".toList).isPrefixOf rest3 then
          some (intPart + (digitsToNat d2 : ℚ) / (10 : ℚ) ^ d2.length)
        else none
    | _ => if ("CAD_".toList).isPrefixOf rest1 then some intPart else none

/-- Scan for the first position where `POINTS(\d+(?:\.\d+)?)CAD_` matches,
advancing one character at a time like a regex engine. -/
def scanPoints : List Char → Option ℚ
  | [] => none
  | c :: rest =>
    if ("POINTS".toList).isPrefixOf (c :: rest) then
      match matchPointsTail ((c :: rest).drop 6) with
      | some q => some q
      | none => scanPoints rest
    else scanPoints rest

/-- Embedding of `parseDiscountTierFromCode`: match the code against
`/POINTS(\d+(?:\.\d+)?)CAD_/`, convert the captured decimal dollar value
to points at 100 points per dollar, and return `none` for non-matching
input (JavaScript returns `null`). -/
def parseDiscountTierFromCode (code : String) : Option ℚ :=
  (scanPoints code.toList).map (fun q => q * 100)

/-- Embedding of `calculatePointsForPurchase`: `Math.floor(orderTotal *
tier.pointsPerDollar)` for the tier of the cumulative spend.  The `none`
tier case (empty tier list) is handled at the call site in
`processPurchase`, where member access on `undefined` would throw. -/
def calculatePointsForPurchase (tiers : List Tier) (orderTotal totalSpent : ℚ) : Option Int :=
  (getTierForSpent tiers totalSpent).map (fun t => (orderTotal * t.pointsPerDollar).floor)

/-! ## Milestone ledger serialization

`processMilestoneRedeem` keeps a JSON object mapping milestone thresholds
to issued discount codes in the `referal_discount_code` column, written
with `JSON.stringify` and read with `JSON.parse` (parse failures are
swallowed).  We model the codec on the shape the program itself writes: an
object with decimal-digit keys and string values free of quotes, commas
and colons, rendered without whitespace and with keys in ascending numeric
order (JavaScript enumerates integer-like keys ascending). -/

/-- Render one ledger entry as `"key":"value"`. -/
def renderEntry (e : Nat × String) : String :=
  "\"" ++ toString e.1 ++ "\":\"" ++ e.2 ++ "\""

/-- Insertion into a key-sorted association list, replacing the value when
the key is present. -/
def insertLedger (m : Nat) (v : String) : List (Nat × String) → List (Nat × String)
  | [] => [(m, v)]
  | (k, w) :: rest =>
    if m = k then (k, v) :: rest
    else if m < k then (m, v) :: (k, w) :: rest
    else (k, w) :: insertLedger m v rest

/-- Embedding of `JSON.stringify` on a milestone ledger: keys ascending. -/
def stringifyMilestoneLedger (l : List (Nat × String)) : String :=
  "\x7b" ++ String.intercalate "," ((l.foldl (fun acc e => insertLedger e.1 e.2 acc) []).map renderEntry) ++ "\x7d"

/-- Parse a quoted string `"body"` whose body contains no quote, comma or
colon characters. -/
def parseQuoted (s : String) : Option String :=
  let cs := s.toList
  match cs with
  | '"' :: rest =>
    if rest ≠ [] ∧ rest.getLast? = some '"' then
      let body := rest.dropLast
      if body.all (fun c => c ≠ '"' && c ≠ ',' && c ≠ ':') then
        some (String.mk body)
      else none
    else none
  | _ => none

/-- Parse one `"digits":"value"` member of a ledger object. -/
def parseLedgerEntry (s : String) : Option (Nat × String) :=
  match s.splitOn ":" with
  | [ks, vs] =>
    match parseQuoted ks, parseQuoted vs with
    | some kb, some v =>
      if kb ≠ "" ∧ kb.toList.all Char.isDigit then
        some (digitsToNat kb.toList, v)
      else none
    | _, _ => none
  | _ => none

/-- Option-valued traversal of a list. -/
def traverseOption {α β : Type} (f : α → Option β) : List α → Option (List β)
  | [] => some []
  | x :: xs =>
    match f x, traverseOption f xs with
    | some y, some ys => some (y :: ys)
    | _, _ => none

/-- Embedding of `JSON.parse` restricted to the ledger-object subset the
program writes; every other string (in particular any legacy plain
discount-code value stored in this column) fails to parse, which the
operation swallows. -/
def parseMilestoneLedger (s : String) : Option (List (Nat × String)) :=
  if s.toList.head? = some '\x7b' ∧ s.toList.getLast? = some '\x7d' ∧ 2 ≤ s.toList.length then
    let inner := (s.drop 1).dropRight 1
    if inner = "" then some []
    else traverseOption parseLedgerEntry (inner.splitOn ",")
  else none

/-! ## Repository layer (repository.js)

Each SQL `UPDATE ... SET ... WHERE test` is `updateWhere test f`; each
`SELECT * ... WHERE test` taking `rows[0]` is `List.find?`; each `INSERT`
appends a row. -/

/-- Apply `f` to every `users` row satisfying `test` (SQL `UPDATE`). -/
def updateWhere (test : User → Bool) (f : User → User) (db : DB) : DB :=
  { db with users := db.users.map fun u => if test u then f u else u }

/-- `findUserByEmail`. -/
def findUserByEmail (db : DB) (email : String) : Option User :=
  db.users.find? fun u => u.email == email

/-- `findUserByReferralCode`. -/
def findUserByReferralCode (db : DB) (referralCode : String) : Option User :=
  db.users.find? fun u => u.referral_code == referralCode

/-- `findUserByDiscountCode`. -/
def findUserByDiscountCode (db : DB) (discountCode : String) : Option User :=
  db.users.find? fun u => u.last_discount_code == some discountCode

/-- `findUserByEmailAndDiscountCode`; the SQL equality `last_discount_code
= $2` is false on a NULL column, matching `== some code` here. -/
def findUserByEmailAndDiscountCode (db : DB) (email discountCode : String) : Option User :=
  db.users.find? fun u => u.email == email && u.last_discount_code == some discountCode

/-- The `users` row inserted by `createUser`: the next SERIAL id, the
supplied columns, and the schema defaults (`referral_count` 0, the other
modelled columns NULL). -/
def insertedRow (db : DB) (firstName email : String) (points : Int)
    (referralCode : String) (referredBy : Option String) : User :=
  { user_id := db.next_user_id, first_name := firstName, email := email,
    points := points, referral_code := referralCode, referred_by := referredBy,
    last_discount_code := none, discount_code_id := none, referral_count := 0,
    referal_discount_code := none, tier := none, total_spent := none }

def insertedDB (db : DB) (firstName email : String) (points : Int)
    (referralCode : String) (referredBy : Option String) : DB :=
  { users := db.users ++ [insertedRow db firstName email points referralCode referredBy],
    actions := db.actions,
    next_user_id := db.next_user_id + 1 }

/-- `createUser`: `INSERT INTO users ...`.  The schema's UNIQUE
constraints on `email` and `referral_code` make the insert throw on a
duplicate. -/
def createUser (db : DB) (firstName email : String) (points : Int)
    (referralCode : String) (referredBy : Option String) : Except String (Nat × DB) :=
  if db.users.any (fun u => u.email == email || u.referral_code == referralCode) then
    .error "duplicate key value violates unique constraint"
  else
    .ok (db.next_user_id, insertedDB db firstName email points referralCode referredBy)

/-- `updateUserPoints`: `UPDATE users SET points = $1 WHERE email = $2`. -/
def updateUserPoints (db : DB) (email : String) (newPoints : Int) : DB :=
  updateWhere (fun u => u.email == email) (fun u => { u with points := newPoints }) db

/-- `updateUserPointsById`. -/
def updateUserPointsById (db : DB) (userId : Nat) (newPoints : Int) : DB :=
  updateWhere (fun u => u.user_id == userId) (fun u => { u with points := newPoints }) db

/-- `addPointsByReferralCode`: `SET points = points + $1 WHERE
referral_code = $2`. -/
def addPointsByReferralCode (db : DB) (referralCode : String) (pointsToAdd : Int) : DB :=
  updateWhere (fun u => u.referral_code == referralCode)
    (fun u => { u with points := u.points + pointsToAdd }) db

/-- `updateUserDiscountCode`: stores the outstanding code, its external id
and the (already computed) balance on the user row. -/
def updateUserDiscountCode (db : DB) (userId : Nat) (discountCode discountId : String)
    (newPoints : Int) : DB :=
  updateWhere (fun u => u.user_id == userId)
    (fun u => { u with last_discount_code := some discountCode,
                       discount_code_id := some discountId, points := newPoints }) db

/-- `clearUserDiscountCode`: NULLs both outstanding-code columns by email. -/
def clearUserDiscountCode (db : DB) (email : String) : DB :=
  updateWhere (fun u => u.email == email)
    (fun u => { u with last_discount_code := none, discount_code_id := none }) db

/-- `clearUserDiscountCodeById`. -/
def clearUserDiscountCodeById (db : DB) (userId : Nat) : DB :=
  updateWhere (fun u => u.user_id == userId)
    (fun u => { u with last_discount_code := none, discount_code_id := none }) db

/-- `incrementReferralCount`: `SET referral_count =
COALESCE(referral_count, 0) + 1` (the column is non-NULL in the model, the
schema default being 0). -/
def incrementReferralCount (db : DB) (userId : Nat) : DB :=
  updateWhere (fun u => u.user_id == userId)
    (fun u => { u with referral_count := u.referral_count + 1 }) db

/-- `updateMilestoneDiscountCodes`. -/
def updateMilestoneDiscountCodes (db : DB) (userId : Nat) (redeemedMilestonesJson : String) : DB :=
  updateWhere (fun u => u.user_id == userId)
    (fun u => { u with referal_discount_code := some redeemedMilestonesJson }) db

/-- `updateUserTier`. -/
def updateUserTier (db : DB) (userId : Nat) (tier : String) (totalSpent : ℚ) : DB :=
  updateWhere (fun u => u.user_id == userId)
    (fun u => { u with tier := some tier, total_spent := some totalSpent }) db

/-- `findActionByUserAndType` (existence of `rows[0]` is all callers use). -/
def findActionByUserAndType (db : DB) (userId : Nat) (actionType : String) : Option Action :=
  db.actions.find? fun a => a.user_id == userId && a.action_type == actionType

/-- `findActionByUserAndRef`. -/
def findActionByUserAndRef (db : DB) (userId : Nat) (actionRef : String) : Option Action :=
  db.actions.find? fun a => a.user_id == userId && a.action_ref == some actionRef

/-- `findPurchaseActions`: the purchase-type rows of a user. -/
def findPurchaseActions (db : DB) (userId : Nat) : List Action :=
  db.actions.filter fun a => a.user_id == userId &&
    (a.action_type == "purchase" || a.action_type == "test_purchase" ||
     a.action_type == "shopify_purchase")

/-- `createAction`: append one `user_actions` row. -/
def createAction (db : DB) (userId : Nat) (actionType : String) (pointsAwarded : Int)
    (actionRef : Option String) : DB :=
  { db with actions := db.actions ++ [⟨userId, actionType, pointsAwarded, actionRef⟩] }

/-! ## Core business-logic operations (rewards.js) -/

/-- Truthiness of a nullable string column: JavaScript `if (x)` is false
for `null`/`undefined` and for the empty string. -/
def truthy (o : Option String) : Bool :=
  o.getD "" != ""

/-- Result payload of `processSignup`. -/
structure SignupResult where
  userId : Nat
  points : Int
  referralCode : String
  referralUrl : String
  welcomeDiscountCode : Option String
deriving DecidableEq

/-- Embedding of `processSignup`.  Oracle inputs: `referralCode` is the
random code from `generateReferralCode`, and `welcome` is the outcome of
the (best-effort) Shopify welcome-discount creation, `none` when that
collaborator fails or is not attempted.  The referrer bonus is credited
before the insert; a failing insert (duplicate email or code) therefore
leaves the bonus committed. -/
def processSignup (db : DB) (email firstName : String) (referredBy : Option String)
    (referralCode : String) (welcome : Option String) :
    Except String SignupResult × DB :=
  let rb := if truthy referredBy then referredBy else none
  let db1 :=
    match rb with
    | some rc =>
      match findUserByReferralCode db rc with
      | some _ => addPointsByReferralCode db rc REFERRER_SIGNUP_BONUS
      | none => db
    | none => db
  match createUser db1 firstName email SIGNUP_POINTS referralCode rb with
  | .error e => (.error e, db1)
  | .ok (uid, db2) =>
    let welcomeDiscountCode := match rb with
      | some _ => welcome
      | none => none
    (.ok ⟨uid, SIGNUP_POINTS, referralCode, buildReferralUrl referralCode,
          welcomeDiscountCode⟩, db2)

/-- Result payload of `processAwardPoints`. -/
structure AwardResult where
  pointsAwarded : Int
  newPoints : Int
deriving DecidableEq

/-- Embedding of `processAwardPoints`.  The JavaScript whitelist test
`!config.ALLOWED_ACTIONS[action]` also rejects a key mapped to 0 (falsy),
hence the explicit 0 test; and it looks the key up through the prototype
chain, so a name inherited from `Object.prototype` (see
`OBJECT_PROTOTYPE_KEYS`) carries a truthy inherited value, passes the
gate, and the call proceeds to the user and prior-action lookups.  On
that inherited path, `user.points + pointsToAdd` concatenates a number
with a function into a string, which the INT `points` column's parameter
binding rejects: the UPDATE throws and writes nothing, surfaced here as
the integer-syntax error with the database unchanged. -/
def processAwardPoints (db : DB) (email action : String) :
    Except String AwardResult × DB :=
  match ALLOWED_ACTIONS action with
  | none =>
    if action ∈ OBJECT_PROTOTYPE_KEYS then
      match findUserByEmail db email with
      | none => (.error "User not found", db)
      | some user =>
        match findActionByUserAndType db user.user_id action with
        | some _ => (.error "Points already claimed for this action", db)
        | none => (.error "invalid input syntax for type integer", db)
    else (.error "Invalid action type", db)
  | some pointsToAdd =>
    if pointsToAdd = 0 then (.error "Invalid action type", db)
    else
      match findUserByEmail db email with
      | none => (.error "User not found", db)
      | some user =>
        match findActionByUserAndType db user.user_id action with
        | some _ => (.error "Points already claimed for this action", db)
        | none =>
          let newPoints := user.points + pointsToAdd
          let db1 := updateUserPoints db email newPoints
          let db2 := createAction db1 user.user_id action pointsToAdd none
          (.ok ⟨pointsToAdd, newPoints⟩, db2)

/-- Result payload of `processRedeem`. -/
structure RedeemResult where
  discountCode : String
  newPoints : Int
deriving DecidableEq

/-- The action-type tag of a redemption: `redeem-${redeemType || 'discount'}`. -/
def redeemTypeTag (redeemType : Option String) : String :=
  "redeem-" ++ (if truthy redeemType then redeemType.getD "discount" else "discount")

/-- Embedding of `processRedeem`.  Oracle input `discount` is the outcome
of `shopify.createDiscountCode` as a `(code, discountId)` pair, `none` for
the collaborator failure, in which case the operation throws with the
deduction and the redemption action already committed. -/
def processRedeem (db : DB) (email : String) (pointsToRedeem : Int)
    (redeemType : Option String) (discount : Option (String × String)) :
    Except String RedeemResult × DB :=
  match findUserByEmail db email with
  | none => (.error "User not found", db)
  | some user =>
    if user.points < pointsToRedeem then (.error "Not enough points to redeem", db)
    else
      let newPoints := user.points - pointsToRedeem
      let db1 := updateUserPointsById db user.user_id newPoints
      let db2 := createAction db1 user.user_id (redeemTypeTag redeemType)
        (-pointsToRedeem) none
      match discount with
      | none => (.error "Failed to create discount code", db2)
      | some (code, discountId) =>
        let db3 := updateUserDiscountCode db2 user.user_id code discountId newPoints
        (.ok ⟨code, newPoints⟩, db3)

/-- Result payload of `processCancelRedeem`. -/
structure CancelResult where
  newPoints : Int
deriving DecidableEq

/-- Embedding of `processCancelRedeem`.  The Shopify deactivation is
best-effort and touches no modelled state.  `pointsToRefund` is
caller-supplied and credited without an action row. -/
def processCancelRedeem (db : DB) (email : String) (pointsToRefund : Int) :
    Except String CancelResult × DB :=
  match findUserByEmail db email with
  | none => (.error "User not found", db)
  | some user =>
    if !truthy user.last_discount_code then (.error "No active discount to cancel", db)
    else
      let newPoints := user.points + pointsToRefund
      let db1 := updateUserPoints db email newPoints
      let db2 := clearUserDiscountCode db1 email
      (.ok ⟨newPoints⟩, db2)

/-- Embedding of `processMarkDiscountUsed`: clears the outstanding-code
columns of the user matching both email and code; no point adjustment. -/
def processMarkDiscountUsed (db : DB) (email usedCode : String) :
    Except String Bool × DB :=
  match findUserByEmailAndDiscountCode db email usedCode with
  | none => (.error "User with that code not found", db)
  | some _ =>
    let db1 := clearUserDiscountCode db email
    (.ok true, db1)

/-- Referrer-bonus payload inside a purchase result. -/
structure ReferrerBonus where
  referrerEmail : String
  bonusPoints : Int
  referrerNewPoints : Int
deriving DecidableEq

/-- Embedding of `processFirstPurchaseReferralBonus`: credits the referrer
of `user` (the row read at the start of `processPurchase`) a fixed bonus,
bumps their referral counter and logs a bonus action keyed by a composite
reference.  Returns `none` when the user has no truthy `referred_by` or
the code resolves to no user. -/
def processFirstPurchaseReferralBonus (db : DB) (user : User) (orderId : String) :
    Option ReferrerBonus × DB :=
  if !truthy user.referred_by then (none, db)
  else
    match findUserByReferralCode db (user.referred_by.getD "") with
    | none => (none, db)
    | some referrer =>
      let referrerNewPoints := referrer.points + REFERRAL_BONUS_POINTS
      let db1 := updateUserPointsById db referrer.user_id referrerNewPoints
      let db2 := incrementReferralCount db1 referrer.user_id
      let db3 := createAction db2 referrer.user_id "referral_first_purchase_bonus"
        REFERRAL_BONUS_POINTS
        (some ("referral_" ++ toString user.user_id ++ "_order_" ++ orderId))
      (some ⟨referrer.email, REFERRAL_BONUS_POINTS, referrerNewPoints⟩, db3)

/-- Embedding of `processUsedDiscountCode`: clear the code from whichever
user holds it as outstanding and, when the parser extracts a tier value,
append a zero-point `discount_tier_used` marker action.  The JavaScript
guard `if (usedTier)` is a truthiness test, so a parsed value of 0 (a
`POINTS0.00CAD_` code) skips the marker like a failed parse does. -/
def processUsedDiscountCode (db : DB) (code : String) : DB :=
  let usedTier := parseDiscountTierFromCode code
  match findUserByDiscountCode db code with
  | none => db
  | some discountUser =>
    let db1 := clearUserDiscountCodeById db discountUser.user_id
    match usedTier with
    | some t =>
      if t = 0 then db1
      else createAction db1 discountUser.user_id "discount_tier_used" 0
        (some ("tier_" ++ toString t))
    | none => db1

/-- The used-discount-codes loop of `processPurchase`: each code starting
with `POINTS` or `MILESTONEFREE_` is processed in order. -/
def processUsedCodes (db : DB) (codes : List String) : DB :=
  codes.foldl
    (fun d code =>
      if code.startsWith "POINTS" || code.startsWith "MILESTONEFREE_" then
        processUsedDiscountCode d code
      else d) db

/-- Successful (non-skipped) payload of `processPurchase`. -/
structure PurchaseOk where
  pointsAwarded : Int
  newPoints : Int
  isFirstPurchase : Bool
  referrerBonus : Option ReferrerBonus
  tier : String
  totalSpent : ℚ
  pointsPerDollar : ℚ
deriving DecidableEq

/-- Outcome of `processPurchase`: a skipped result is a normal return, not
an error. -/
inductive PurchaseOutcome where
  | skipped (reason : String)
  | ok (r : PurchaseOk)
deriving DecidableEq

/-- Embedding of `processPurchase`.  Oracle input `totalSpent` is the
Shopify cumulative-spend lookup (whose gateway catches its own errors and
returns a number in every case); `tiers` is the `config.TIERS` parameter.
When the tier list is empty, `getTierForSpent` yields JavaScript
`undefined` and the member access `tier.name` throws a TypeError, which we
surface as an `Except.error` before any write. -/
def processPurchase (tiers : List Tier) (db : DB) (email : String) (orderTotal : ℚ)
    (orderId : String) (discountCodes : List String) (totalSpent : ℚ) :
    Except String PurchaseOutcome × DB :=
  match findUserByEmail db email with
  | none => (.ok (.skipped "User not in referral program"), db)
  | some user =>
    match findActionByUserAndRef db user.user_id ("order_" ++ orderId) with
    | some _ => (.ok (.skipped "Order already processed"), db)
    | none =>
      let isFirstPurchase := (findPurchaseActions db user.user_id).isEmpty
      match getTierForSpent tiers totalSpent with
      | none => (.error "TypeError: cannot read properties of undefined", db)
      | some tier =>
        let pointsToAdd : Int := (orderTotal * tier.pointsPerDollar).floor
        let newPoints := user.points + pointsToAdd
        let db1 := updateUserTier db user.user_id tier.name totalSpent
        let db2 := updateUserPoints db1 email newPoints
        let db3 := createAction db2 user.user_id "shopify_purchase" pointsToAdd
          (some ("order_" ++ orderId))
        let db4 := processUsedCodes db3 discountCodes
        let rb := if isFirstPurchase then processFirstPurchaseReferralBonus db4 user orderId
          else (none, db4)
        (.ok (.ok ⟨pointsToAdd, newPoints, isFirstPurchase, rb.1, tier.name,
          totalSpent, tier.pointsPerDollar⟩), rb.2)

/-- Result payload of `processMilestoneRedeem`. -/
structure MilestoneResult where
  rewardName : String
  discountCode : String
deriving DecidableEq

/-- Embedding of `processMilestoneRedeem`.  Oracle input `discount` is the
outcome of the Shopify free-product discount creation.  A milestone-ledger
string that fails to parse is swallowed (`console.warn`) and treated as
the empty ledger; the already-redeemed gate is the truthiness of the entry
at `milestonePoints`. -/
def processMilestoneRedeem (db : DB) (email : String) (milestonePoints : Nat)
    (discount : Option String) : Except String MilestoneResult × DB :=
  match MILESTONE_REWARDS milestonePoints with
  | none => (.error "Invalid milestone", db)
  | some reward =>
    match findUserByEmail db email with
    | none => (.error "User not found", db)
    | some user =>
      if user.referral_count < milestonePoints then
        (.error ("You need " ++ toString milestonePoints ++
          " referrals to unlock this reward"), db)
      else
        let redeemedMilestones : List (Nat × String) :=
          match user.referal_discount_code with
          | some s => if s = "" then [] else (parseMilestoneLedger s).getD []
          | none => []
        if truthy (redeemedMilestones.lookup milestonePoints) then
          (.error "Milestone already redeemed", db)
        else
          match discount with
          | none => (.error "Failed to create discount code", db)
          | some discountCode =>
            let newLedger := insertLedger milestonePoints discountCode redeemedMilestones
            let db1 := updateMilestoneDiscountCodes db user.user_id
              (stringifyMilestoneLedger newLedger)
            (.ok ⟨reward.name, discountCode⟩, db1)

/-! ## Operation alphabet and replay semantics

A sequential run of the seven core operations, each with its oracle
(collaborator) inputs, folded over the database state. -/

/-- One core operation together with its request fields and collaborator
oracle inputs. -/
inductive Op where
  | signup (email firstName : String) (referredBy : Option String)
      (referralCode : String) (welcome : Option String)
  | award (email action : String)
  | redeem (email : String) (pointsToRedeem : Int) (redeemType : Option String)
      (discount : Option (String × String))
  | cancel (email : String) (pointsToRefund : Int)
  | markUsed (email usedCode : String)
  | purchase (email : String) (orderTotal : ℚ) (orderId : String)
      (discountCodes : List String) (totalSpent : ℚ)
  | milestone (email : String) (milestonePoints : Nat) (discount : Option String)
deriving DecidableEq

/-- The database state after one operation (the state committed at the
return or throw). -/
def step (tiers : List Tier) (db : DB) : Op → DB
  | .signup e f rb rc w => (processSignup db e f rb rc w).2
  | .award e a => (processAwardPoints db e a).2
  | .redeem e p rt d => (processRedeem db e p rt d).2
  | .cancel e p => (processCancelRedeem db e p).2
  | .markUsed e c => (processMarkDiscountUsed db e c).2
  | .purchase e ot oid cs ts => (processPurchase tiers db e ot oid cs ts).2
  | .milestone e m d => (processMilestoneRedeem db e m d).2

/-- Sequential replay of a list of operations. -/
def runOps (tiers : List Tier) (db : DB) : List Op → DB
  | [] => db
  | op :: rest => runOps tiers (step tiers db op) rest

/-- `n` successive `processAwardPoints` calls with the same request,
collecting each outcome in order. -/
def awardIter (email action : String) : Nat → DB → List (Except String AwardResult) × DB
  | 0, db => ([], db)
  | n + 1, db =>
    let r := processAwardPoints db email action
    let rest := awardIter email action n r.2
    (r.1 :: rest.1, rest.2)

/-- `n` successive `processPurchase` calls with the same request,
collecting each outcome in order. -/
def purchaseIter (tiers : List Tier) (email : String) (orderTotal : ℚ) (orderId : String)
    (discountCodes : List String) (totalSpent : ℚ) :
    Nat → DB → List (Except String PurchaseOutcome) × DB
  | 0, db => ([], db)
  | n + 1, db =>
    let r := processPurchase tiers db email orderTotal orderId discountCodes totalSpent
    let rest := purchaseIter tiers email orderTotal orderId discountCodes totalSpent n r.2
    (r.1 :: rest.1, rest.2)

/-- The row of a given `user_id`, when present. -/
def rowOf (db : DB) (uid : Nat) : Option User :=
  db.users.find? fun u => u.user_id == uid

/-- Stored balance of a `user_id` (0 when the row is absent). -/
def pointsOf (db : DB) (uid : Nat) : Int :=
  (rowOf db uid).elim 0 User.points

/-- Sum of `points_awarded` over the persisted action rows of a user: the
fresh balance accumulator of the ledger-consistency check. -/
def actionSum (db : DB) (uid : Nat) : Int :=
  ((db.actions.filter fun a => a.user_id == uid).map Action.points_awarded).sum

/-- Divergence of a user's stored balance from their action-log sum. -/
def ledgerGap (db : DB) (uid : Nat) : Int :=
  pointsOf db uid - actionSum db uid

/-- Structural well-formedness maintained by the schema: distinct
`user_id`s (PRIMARY KEY) and emails (UNIQUE) across rows, and ids below
the SERIAL counter, for user rows and action rows alike. -/
def WF (db : DB) : Prop :=
  db.users.Pairwise (fun a b => a.user_id ≠ b.user_id ∧ a.email ≠ b.email) ∧
  (∀ u ∈ db.users, u.user_id < db.next_user_id) ∧
  (∀ a ∈ db.actions, a.user_id < db.next_user_id)

/-- The balance credit an operation grants a user without logging any
action row, computed from the pre-state: the signup bonus of a freshly
inserted user, the referrer signup bonus, and a cancel-redeem refund.
Every other operation logs every point it moves. -/
def creditsOf (db : DB) (op : Op) (uid : Nat) : Int :=
  match op with
  | .signup email _ referredBy rc _ =>
    (match (if truthy referredBy then referredBy else none), rowOf db uid with
     | some r, some u => if u.referral_code = r then REFERRER_SIGNUP_BONUS else 0
     | _, _ => 0) +
    (if uid = db.next_user_id ∧
        (db.users.any fun u => u.email == email || u.referral_code == rc) = false
     then SIGNUP_POINTS else 0)
  | .cancel email refund =>
    (match findUserByEmail db email with
     | some u => if truthy u.last_discount_code ∧ u.user_id = uid then refund else 0
     | none => 0)
  | _ => 0

/-- Accumulated unlogged credits of a user over a replayed run. -/
def ghostCredits (tiers : List Tier) : DB → List Op → Nat → Int
  | _, [] => fun _ => 0
  | db, op :: rest => fun uid =>
      creditsOf db op uid + ghostCredits tiers (step tiers db op) rest uid

/-! ## Helper lemmas about the repository primitives -/

theorem find?_updateWhere (p test : User → Bool) (f : User → User)
    (hp : ∀ u, p (f u) = p u) (db : DB) :
    (updateWhere test f db).users.find? p =
      (db.users.find? p).map (fun u => if test u then f u else u) := by
  show List.find? p (db.users.map fun u => if test u then f u else u) = _
  have hfun : (p ∘ fun u => if test u then f u else u) = p := by
    funext u
    by_cases h : test u <;> simp [h, hp]
  rw [List.find?_map, hfun]

theorem rowOf_updateWhere (test : User → Bool) (f : User → User)
    (hid : ∀ u, (f u).user_id = u.user_id) (db : DB) (uid : Nat) :
    rowOf (updateWhere test f db) uid =
      (rowOf db uid).map (fun u => if test u then f u else u) :=
  find?_updateWhere _ test f (fun u => by simp [hid]) db

theorem rowOf_mem {db : DB} {uid : Nat} {u : User} (h : rowOf db uid = some u) :
    u ∈ db.users ∧ u.user_id = uid := by
  refine ⟨List.mem_of_find?_eq_some h, ?_⟩
  have := List.find?_some h
  simpa using this

theorem find?_id_of_mem {l : List User} {u : User}
    (hPW : l.Pairwise (fun a b => a.user_id ≠ b.user_id ∧ a.email ≠ b.email))
    (hu : u ∈ l) : l.find? (fun v => v.user_id == u.user_id) = some u := by
  induction l with
  | nil => simp at hu
  | cons hd tl ih =>
    rcases List.mem_cons.mp hu with rfl | hmem
    · simp [List.find?_cons]
    · have hne : hd.user_id ≠ u.user_id := ((List.pairwise_cons.mp hPW).1 u hmem).1
      rw [List.find?_cons]
      have hb : (hd.user_id == u.user_id) = false := by simpa using hne
      simp only [hb]
      exact ih (List.pairwise_cons.mp hPW).2 hmem

theorem rowOf_of_mem {db : DB} {u : User}
    (hPW : db.users.Pairwise (fun a b => a.user_id ≠ b.user_id ∧ a.email ≠ b.email))
    (hu : u ∈ db.users) : rowOf db u.user_id = some u :=
  find?_id_of_mem hPW hu

theorem wf_symm : Symmetric (fun a b : User => a.user_id ≠ b.user_id ∧ a.email ≠ b.email) := by
  intro a b h
  exact ⟨h.1.symm, h.2.symm⟩

theorem email_unique {db : DB} {e : String} {u v : User} (hWF : WF db)
    (h1 : findUserByEmail db e = some u) (hv : v ∈ db.users) (he : v.email = e) : v = u := by
  have hu : u ∈ db.users := List.mem_of_find?_eq_some h1
  have hue : u.email = e := by simpa using List.find?_some h1
  by_contra hne
  exact ((hWF.1.forall wf_symm) hv hu hne).2 (he.trans hue.symm)

theorem pointsOf_updateWhere_const (test : User → Bool) (f : User → User)
    (hid : ∀ u, (f u).user_id = u.user_id) (hp : ∀ u, (f u).points = u.points)
    (db : DB) (uid : Nat) :
    pointsOf (updateWhere test f db) uid = pointsOf db uid := by
  unfold pointsOf
  rw [rowOf_updateWhere test f hid]
  cases h : rowOf db uid with
  | none => rfl
  | some w =>
    by_cases hw : test w <;> simp [Option.elim, hw, hp]

theorem actionSum_updateWhere (test : User → Bool) (f : User → User) (db : DB) (uid : Nat) :
    actionSum (updateWhere test f db) uid = actionSum db uid := rfl

theorem ledgerGap_updateWhere_const (test : User → Bool) (f : User → User)
    (hid : ∀ u, (f u).user_id = u.user_id) (hp : ∀ u, (f u).points = u.points)
    (db : DB) (uid : Nat) :
    ledgerGap (updateWhere test f db) uid = ledgerGap db uid := by
  unfold ledgerGap
  rw [pointsOf_updateWhere_const test f hid hp, actionSum_updateWhere]

theorem rowOf_createAction (db : DB) (uid₀ : Nat) (t : String) (p : Int)
    (r : Option String) (uid : Nat) :
    rowOf (createAction db uid₀ t p r) uid = rowOf db uid := rfl

theorem pointsOf_createAction (db : DB) (uid₀ : Nat) (t : String) (p : Int)
    (r : Option String) (uid : Nat) :
    pointsOf (createAction db uid₀ t p r) uid = pointsOf db uid := rfl

theorem actionSum_createAction (db : DB) (uid₀ : Nat) (t : String) (p : Int)
    (r : Option String) (uid : Nat) :
    actionSum (createAction db uid₀ t p r) uid =
      actionSum db uid + (if uid₀ = uid then p else 0) := by
  unfold actionSum createAction
  simp only [List.filter_append, List.map_append, List.sum_append]
  by_cases h : uid₀ = uid
  · subst h
    simp
  · have hb : (uid₀ == uid) = false := by simpa using h
    simp [List.filter, hb, h]

theorem ledgerGap_createAction (db : DB) (uid₀ : Nat) (t : String) (p : Int)
    (r : Option String) (uid : Nat) :
    ledgerGap (createAction db uid₀ t p r) uid =
      ledgerGap db uid - (if uid₀ = uid then p else 0) := by
  unfold ledgerGap
  rw [pointsOf_createAction, actionSum_createAction]
  ring

theorem WF_updateWhere (test : User → Bool) (f : User → User)
    (hid : ∀ u, (f u).user_id = u.user_id) (hem : ∀ u, (f u).email = u.email)
    {db : DB} (hWF : WF db) : WF (updateWhere test f db) := by
  obtain ⟨h1, h2, h3⟩ := hWF
  refine ⟨?_, ?_, h3⟩
  · show List.Pairwise _ (db.users.map _)
    rw [List.pairwise_map]
    refine h1.imp ?_
    intro a b hab
    constructor
    · by_cases ha : test a <;> by_cases hb : test b <;>
        simp [ha, hb, hid, hab.1]
    · by_cases ha : test a <;> by_cases hb : test b <;>
        simp [ha, hb, hem, hab.2]
  · intro u hu
    rcases List.mem_map.mp hu with ⟨v, hv, rfl⟩
    show (if test v then f v else v).user_id < db.next_user_id
    by_cases h : test v <;> simp [h, hid] <;> exact h2 v hv

theorem WF_createAction {db : DB} (hWF : WF db) {uid₀ : Nat}
    (h : uid₀ < db.next_user_id) (t : String) (p : Int) (r : Option String) :
    WF (createAction db uid₀ t p r) := by
  obtain ⟨h1, h2, h3⟩ := hWF
  refine ⟨h1, h2, ?_⟩
  intro a ha
  rcases List.mem_append.mp ha with hmem | hmem
  · exact h3 a hmem
  · simp at hmem
    subst hmem
    exact h

theorem pointsOf_updateUserPoints {db : DB} {e : String} {u : User} (hWF : WF db)
    (hu : findUserByEmail db e = some u) (p : Int) (uid : Nat) :
    pointsOf (updateUserPoints db e p) uid =
      if uid = u.user_id then p else pointsOf db uid := by
  have humem : u ∈ db.users := List.mem_of_find?_eq_some hu
  unfold updateUserPoints pointsOf
  rw [rowOf_updateWhere (fun v => v.email == e) (fun v => { v with points := p })
    (fun _ => rfl) db uid]
  cases hro : rowOf db uid with
  | none =>
    have hne : uid ≠ u.user_id := by
      intro h
      subst h
      rw [rowOf_of_mem hWF.1 humem] at hro
      cases hro
    simp [Option.elim, hne, pointsOf, hro]
  | some w =>
    have hwid : w.user_id = uid := (rowOf_mem hro).2
    by_cases hwe : w.email = e
    · have hweq : w = u := email_unique hWF hu (rowOf_mem hro).1 hwe
      subst hweq
      simp [Option.elim, hwe, hwid.symm, pointsOf, hro]
    · have hne : uid ≠ u.user_id := by
        intro h
        subst h
        rw [rowOf_of_mem hWF.1 humem] at hro
        cases hro
        exact hwe (by simpa using List.find?_some hu)
      simp [Option.elim, hwe, hne, pointsOf, hro]

theorem pointsOf_idSet {db : DB} (uidT : Nat) (f : User → User) (p : Int)
    (hid : ∀ u, (f u).user_id = u.user_id) (hp : ∀ u, (f u).points = p) (uid : Nat) :
    pointsOf (updateWhere (fun u => u.user_id == uidT) f db) uid =
      match rowOf db uid with
      | some _ => if uid = uidT then p else pointsOf db uid
      | none => 0 := by
  unfold pointsOf
  rw [rowOf_updateWhere _ _ hid]
  cases hro : rowOf db uid with
  | none => rfl
  | some w =>
    have hwid : w.user_id = uid := (rowOf_mem hro).2
    by_cases h : uid = uidT
    · subst h
      simp [Option.elim, hwid, hp]
    · simp [Option.elim, hwid, h, pointsOf, hro]

theorem ledgerGap_updateUserPoints {db : DB} {e : String} {u : User} (hWF : WF db)
    (hu : findUserByEmail db e = some u) (p : Int) (uid : Nat) :
    ledgerGap (updateUserPoints db e p) uid =
      if uid = u.user_id then p - actionSum db uid else ledgerGap db uid := by
  unfold ledgerGap
  have ha : actionSum (updateUserPoints db e p) uid = actionSum db uid := rfl
  rw [pointsOf_updateUserPoints hWF hu, ha]
  by_cases h : uid = u.user_id <;> simp [h]

theorem ledgerGap_idSet {db : DB} (uidT : Nat) (f : User → User) (p : Int)
    (hid : ∀ u, (f u).user_id = u.user_id) (hp : ∀ u, (f u).points = p) (uid : Nat) :
    ledgerGap (updateWhere (fun u => u.user_id == uidT) f db) uid =
      if uid = uidT ∧ (rowOf db uid).isSome then p - actionSum db uid
      else ledgerGap db uid := by
  unfold ledgerGap
  have ha : actionSum (updateWhere (fun u => u.user_id == uidT) f db) uid = actionSum db uid := rfl
  rw [pointsOf_idSet uidT f p hid hp, ha]
  cases hro : rowOf db uid with
  | none => simp [pointsOf, hro]
  | some w => by_cases h : uid = uidT <;> simp [h, pointsOf, hro]

theorem WF_updateUserPoints {db : DB} (hWF : WF db) (e : String) (p : Int) :
    WF (updateUserPoints db e p) := by
  apply WF_updateWhere
  · intro u
    rfl
  · intro u
    rfl
  · exact hWF

theorem WF_updateUserPointsById {db : DB} (hWF : WF db) (uidT : Nat) (p : Int) :
    WF (updateUserPointsById db uidT p) := by
  apply WF_updateWhere
  · intro u
    rfl
  · intro u
    rfl
  · exact hWF

theorem WF_addPointsByReferralCode {db : DB} (hWF : WF db) (rc : String) (p : Int) :
    WF (addPointsByReferralCode db rc p) := by
  apply WF_updateWhere
  · intro u
    rfl
  · intro u
    rfl
  · exact hWF

theorem WF_updateUserDiscountCode {db : DB} (hWF : WF db) (uidT : Nat)
    (code did : String) (p : Int) : WF (updateUserDiscountCode db uidT code did p) := by
  apply WF_updateWhere
  · intro u
    rfl
  · intro u
    rfl
  · exact hWF

theorem WF_clearUserDiscountCode {db : DB} (hWF : WF db) (e : String) :
    WF (clearUserDiscountCode db e) := by
  apply WF_updateWhere
  · intro u
    rfl
  · intro u
    rfl
  · exact hWF

theorem WF_clearUserDiscountCodeById {db : DB} (hWF : WF db) (uidT : Nat) :
    WF (clearUserDiscountCodeById db uidT) := by
  apply WF_updateWhere
  · intro u
    rfl
  · intro u
    rfl
  · exact hWF

theorem WF_incrementReferralCount {db : DB} (hWF : WF db) (uidT : Nat) :
    WF (incrementReferralCount db uidT) := by
  apply WF_updateWhere
  · intro u
    rfl
  · intro u
    rfl
  · exact hWF

theorem WF_updateMilestoneDiscountCodes {db : DB} (hWF : WF db) (uidT : Nat) (s : String) :
    WF (updateMilestoneDiscountCodes db uidT s) := by
  apply WF_updateWhere
  · intro u
    rfl
  · intro u
    rfl
  · exact hWF

theorem WF_updateUserTier {db : DB} (hWF : WF db) (uidT : Nat) (t : String) (sp : Rat) :
    WF (updateUserTier db uidT t sp) := by
  apply WF_updateWhere
  · intro u
    rfl
  · intro u
    rfl
  · exact hWF

theorem ledgerGap_clearUserDiscountCode (db : DB) (e : String) (uid : Nat) :
    ledgerGap (clearUserDiscountCode db e) uid = ledgerGap db uid := by
  apply ledgerGap_updateWhere_const
  · intro u
    rfl
  · intro u
    rfl

theorem ledgerGap_clearUserDiscountCodeById (db : DB) (uidT : Nat) (uid : Nat) :
    ledgerGap (clearUserDiscountCodeById db uidT) uid = ledgerGap db uid := by
  apply ledgerGap_updateWhere_const
  · intro u
    rfl
  · intro u
    rfl

theorem ledgerGap_incrementReferralCount (db : DB) (uidT : Nat) (uid : Nat) :
    ledgerGap (incrementReferralCount db uidT) uid = ledgerGap db uid := by
  apply ledgerGap_updateWhere_const
  · intro u
    rfl
  · intro u
    rfl

theorem ledgerGap_updateMilestoneDiscountCodes (db : DB) (uidT : Nat) (s : String) (uid : Nat) :
    ledgerGap (updateMilestoneDiscountCodes db uidT s) uid = ledgerGap db uid := by
  apply ledgerGap_updateWhere_const
  · intro u
    rfl
  · intro u
    rfl

theorem ledgerGap_updateUserTier (db : DB) (uidT : Nat) (t : String) (sp : Rat) (uid : Nat) :
    ledgerGap (updateUserTier db uidT t sp) uid = ledgerGap db uid := by
  apply ledgerGap_updateWhere_const
  · intro u
    rfl
  · intro u
    rfl

theorem ledgerGap_updateUserPointsById (db : DB) (uidT : Nat) (p : Int) (uid : Nat) :
    ledgerGap (updateUserPointsById db uidT p) uid =
      if uid = uidT ∧ (rowOf db uid).isSome then p - actionSum db uid
      else ledgerGap db uid := by
  unfold updateUserPointsById
  exact ledgerGap_idSet uidT (fun u => { u with points := p }) p
    (fun _ => rfl) (fun _ => rfl) uid

theorem ledgerGap_updateUserDiscountCode (db : DB) (uidT : Nat) (code did : String)
    (p : Int) (uid : Nat) :
    ledgerGap (updateUserDiscountCode db uidT code did p) uid =
      if uid = uidT ∧ (rowOf db uid).isSome then p - actionSum db uid
      else ledgerGap db uid := by
  unfold updateUserDiscountCode
  exact ledgerGap_idSet uidT
    (fun u => { u with last_discount_code := some code, discount_code_id := some did, points := p })
    p (fun _ => rfl) (fun _ => rfl) uid

theorem rowOf_updateUserPointsById (db : DB) (uidT : Nat) (p : Int) (uid : Nat) :
    rowOf (updateUserPointsById db uidT p) uid =
      (rowOf db uid).map
        (fun u => if u.user_id == uidT then { u with points := p } else u) := by
  unfold updateUserPointsById
  exact rowOf_updateWhere (fun u => u.user_id == uidT) (fun u => { u with points := p })
    (fun _ => rfl) db uid

/-! ## Per-operation ledger lemmas

For each core operation: well-formedness is preserved, and the gap between
the stored balance and the replayed action-log sum of every user changes
by exactly the unlogged credit `creditsOf` of that operation (zero for all
operations except Signup and CancelRedeem). -/

theorem gapWF_markUsed (db : DB) (e c : String) (hWF : WF db) :
    WF (processMarkDiscountUsed db e c).2 ∧
    ∀ uid, ledgerGap (processMarkDiscountUsed db e c).2 uid = ledgerGap db uid := by
  unfold processMarkDiscountUsed
  cases findUserByEmailAndDiscountCode db e c with
  | none => exact ⟨hWF, fun _ => rfl⟩
  | some u =>
    dsimp only
    exact ⟨WF_clearUserDiscountCode hWF e, fun uid => ledgerGap_clearUserDiscountCode db e uid⟩

theorem gapWF_milestone (db : DB) (e : String) (m : Nat) (d : Option String) (hWF : WF db) :
    WF (processMilestoneRedeem db e m d).2 ∧
    ∀ uid, ledgerGap (processMilestoneRedeem db e m d).2 uid = ledgerGap db uid := by
  unfold processMilestoneRedeem
  cases MILESTONE_REWARDS m with
  | none => exact ⟨hWF, fun _ => rfl⟩
  | some reward =>
    cases findUserByEmail db e with
    | none => exact ⟨hWF, fun _ => rfl⟩
    | some user =>
      by_cases hrc : user.referral_count < m
      · simp only [if_pos hrc]
        exact ⟨hWF, fun _ => by trivial⟩
      · simp only [if_neg hrc]
        by_cases hgate : truthy ((match user.referal_discount_code with
            | some s => if s = "" then [] else (parseMilestoneLedger s).getD []
            | none => []).lookup m)
        · simp only [hgate, if_true]
          exact ⟨hWF, fun _ => by trivial⟩
        · simp only [hgate, if_false, Bool.false_eq_true]
          cases d with
          | none => exact ⟨hWF, fun _ => by trivial⟩
          | some code =>
            dsimp only
            exact ⟨WF_updateMilestoneDiscountCodes hWF user.user_id _,
              fun uid => ledgerGap_updateMilestoneDiscountCodes db user.user_id _ uid⟩

theorem gapWF_award (db : DB) (e a : String) (hWF : WF db) :
    WF (processAwardPoints db e a).2 ∧
    ∀ uid, ledgerGap (processAwardPoints db e a).2 uid = ledgerGap db uid := by
  unfold processAwardPoints
  cases ALLOWED_ACTIONS a with
  | none =>
    dsimp only
    by_cases hp : a ∈ OBJECT_PROTOTYPE_KEYS
    · rw [if_pos hp]
      cases findUserByEmail db e with
      | none => exact ⟨hWF, fun _ => rfl⟩
      | some user =>
        dsimp only
        cases findActionByUserAndType db user.user_id a with
        | some _ => exact ⟨hWF, fun _ => rfl⟩
        | none => exact ⟨hWF, fun _ => rfl⟩
    · rw [if_neg hp]
      exact ⟨hWF, fun _ => rfl⟩
  | some v =>
    by_cases hv : v = 0
    · simp only [if_pos hv]
      exact ⟨hWF, fun _ => by trivial⟩
    · simp only [if_neg hv]
      cases hu : findUserByEmail db e with
      | none => exact ⟨hWF, fun _ => rfl⟩
      | some user =>
        dsimp only
        cases findActionByUserAndType db user.user_id a with
        | some _ => exact ⟨hWF, fun _ => rfl⟩
        | none =>
          dsimp only
          have humem : user ∈ db.users := List.mem_of_find?_eq_some hu
          constructor
          · exact WF_createAction (WF_updateUserPoints hWF e (user.points + v))
              (hWF.2.1 user humem) _ _ _
          intro uid
          rw [ledgerGap_createAction,
            ledgerGap_updateUserPoints hWF hu (user.points + v) uid]
          by_cases h : uid = user.user_id
          · have hpo : pointsOf db uid = user.points := by
              unfold pointsOf
              rw [h, rowOf_of_mem hWF.1 humem]
              rfl
            simp only [if_pos h, if_pos h.symm, ledgerGap, hpo]
            ring
          · have h2 : ¬ (user.user_id = uid) := fun hh => h hh.symm
            simp only [if_neg h, if_neg h2, sub_zero]

theorem gapWF_cancel (db : DB) (e : String) (refund : Int) (hWF : WF db) :
    WF (processCancelRedeem db e refund).2 ∧
    ∀ uid, ledgerGap (processCancelRedeem db e refund).2 uid =
      ledgerGap db uid + creditsOf db (.cancel e refund) uid := by
  unfold processCancelRedeem
  cases hu : findUserByEmail db e with
  | none => exact ⟨hWF, fun uid => by simp [creditsOf, hu]⟩
  | some user =>
    dsimp only
    by_cases ht : truthy user.last_discount_code
    · simp only [ht, Bool.not_true, Bool.false_eq_true, if_false]
      refine ⟨WF_clearUserDiscountCode (WF_updateUserPoints hWF e (user.points + refund)) e,
        fun uid => ?_⟩
      rw [ledgerGap_clearUserDiscountCode,
        ledgerGap_updateUserPoints hWF hu (user.points + refund) uid]
      simp only [creditsOf, hu]
      by_cases h : uid = user.user_id
      · have hpo : pointsOf db uid = user.points := by
          unfold pointsOf
          rw [h, rowOf_of_mem hWF.1 (List.mem_of_find?_eq_some hu)]
          rfl
        have hc : (truthy user.last_discount_code = true ∧ user.user_id = uid) := ⟨ht, h.symm⟩
        simp only [if_pos h, if_pos hc, ledgerGap, hpo]
        ring
      · have h2 : ¬ (truthy user.last_discount_code = true ∧ user.user_id = uid) := by
          rintro ⟨-, hh⟩
          exact h hh.symm
        simp only [if_neg h, if_neg h2, add_zero]
    · have ht2 : (!truthy user.last_discount_code) = true := by simp [ht]
      simp only [ht2, if_true]
      refine ⟨hWF, fun uid => ?_⟩
      simp only [creditsOf, hu]
      have h2 : ¬ (truthy user.last_discount_code = true ∧ user.user_id = uid) := by
        rintro ⟨hh, -⟩
        exact ht hh
      simp only [if_neg h2, add_zero]

theorem gapWF_redeem (db : DB) (e : String) (c : Int) (rt : Option String)
    (d : Option (String × String)) (hWF : WF db) :
    WF (processRedeem db e c rt d).2 ∧
    ∀ uid, ledgerGap (processRedeem db e c rt d).2 uid = ledgerGap db uid := by
  unfold processRedeem
  cases hu : findUserByEmail db e with
  | none => exact ⟨hWF, fun _ => rfl⟩
  | some user =>
    dsimp only
    by_cases hlt : user.points < c
    · simp only [if_pos hlt]
      exact ⟨hWF, fun _ => by trivial⟩
    · simp only [if_neg hlt]
      have humem : user ∈ db.users := List.mem_of_find?_eq_some hu
      have hWF2 : WF (createAction (updateUserPointsById db user.user_id (user.points - c))
          user.user_id (redeemTypeTag rt) (-c) none) :=
        WF_createAction (WF_updateUserPointsById hWF user.user_id (user.points - c))
          (hWF.2.1 user humem) _ _ _
      have hgap2 : ∀ uid, ledgerGap (createAction
          (updateUserPointsById db user.user_id (user.points - c))
          user.user_id (redeemTypeTag rt) (-c) none) uid = ledgerGap db uid := by
        intro uid
        rw [ledgerGap_createAction, ledgerGap_updateUserPointsById]
        by_cases h : uid = user.user_id
        · have hro : rowOf db uid = some user := by
            rw [h]
            exact rowOf_of_mem hWF.1 humem
          have hpo : pointsOf db uid = user.points := by
            unfold pointsOf
            rw [hro]
            rfl
          simp only [hro, Option.isSome_some, and_true, if_pos h, if_pos h.symm,
            ledgerGap, hpo]
          ring
        · have h2 : ¬ (user.user_id = uid) := fun hh => h hh.symm
          have h3 : ¬ (uid = user.user_id ∧ (rowOf db uid).isSome = true) := by
            rintro ⟨hh, -⟩
            exact h hh
          simp only [if_neg h2, if_neg h3, sub_zero]
      cases d with
      | none => exact ⟨hWF2, hgap2⟩
      | some cd =>
        refine ⟨WF_updateUserDiscountCode hWF2 user.user_id cd.1 cd.2 (user.points - c),
          fun uid => ?_⟩
        rw [ledgerGap_updateUserDiscountCode]
        by_cases h : uid = user.user_id
        · have hro2 : rowOf (createAction (updateUserPointsById db user.user_id (user.points - c))
              user.user_id (redeemTypeTag rt) (-c) none) uid =
              some { user with points := user.points - c } := by
            rw [rowOf_createAction, rowOf_updateUserPointsById, h,
              rowOf_of_mem hWF.1 humem]
            simp
          have hsum2 : actionSum (createAction
              (updateUserPointsById db user.user_id (user.points - c))
              user.user_id (redeemTypeTag rt) (-c) none) uid = actionSum db uid + -c := by
            rw [actionSum_createAction]
            have ha : actionSum (updateUserPointsById db user.user_id (user.points - c)) uid =
              actionSum db uid := rfl
            rw [ha, if_pos h.symm]
          have hpo : pointsOf db uid = user.points := by
            unfold pointsOf
            rw [h, rowOf_of_mem hWF.1 humem]
            rfl
          rw [hro2]
          simp only [Option.isSome_some, and_true, if_pos h, hsum2, ledgerGap, hpo]
          ring
        · have h3 : ¬ (uid = user.user_id ∧ (rowOf (createAction
              (updateUserPointsById db user.user_id (user.points - c))
              user.user_id (redeemTypeTag rt) (-c) none) uid).isSome = true) := by
            rintro ⟨hh, -⟩
            exact h hh
          rw [if_neg h3]
          exact hgap2 uid

theorem actionSum_eq_zero {db : DB} {uid : Nat} (h : ∀ a ∈ db.actions, a.user_id ≠ uid) :
    actionSum db uid = 0 := by
  unfold actionSum
  have hfil : db.actions.filter (fun a => a.user_id == uid) = [] := by
    rw [List.filter_eq_nil_iff]
    intro a ha
    simpa using h a ha
  rw [hfil]
  rfl

theorem ledgerGap_addPointsByReferralCode (db : DB) (r : String) (p : Int) (uid : Nat) :
    ledgerGap (addPointsByReferralCode db r p) uid =
      ledgerGap db uid +
        (match rowOf db uid with
         | some u => if u.referral_code = r then p else 0
         | none => 0) := by
  unfold ledgerGap
  have ha : actionSum (addPointsByReferralCode db r p) uid = actionSum db uid := rfl
  rw [ha]
  unfold pointsOf addPointsByReferralCode
  rw [rowOf_updateWhere (fun u => u.referral_code == r)
    (fun u => { u with points := u.points + p }) (fun _ => rfl) db uid]
  cases hro : rowOf db uid with
  | none => simp
  | some u =>
    by_cases hc : u.referral_code = r
    · simp [Option.elim, hc]
      ring
    · simp [Option.elim, hc]

theorem any_dup_addPointsByReferralCode (db : DB) (r : String) (p : Int) (e rc : String) :
    ((addPointsByReferralCode db r p).users.any fun u => u.email == e || u.referral_code == rc) =
      (db.users.any fun u => u.email == e || u.referral_code == rc) := by
  show (db.users.map _).any _ = _
  rw [List.any_map]
  congr 1
  funext u
  by_cases hc : u.referral_code == r <;> simp [Function.comp, hc]

theorem WF_insertedDB {db : DB} (hWF : WF db) {fn e : String} {p : Int} {rc : String}
    {rb2 : Option String}
    (hany : (db.users.any fun u => u.email == e || u.referral_code == rc) = false) :
    WF (insertedDB db fn e p rc rb2) := by
  obtain ⟨h1, h2, h3⟩ := hWF
  have hall := List.any_eq_false.mp hany
  refine ⟨?_, ?_, ?_⟩
  · show List.Pairwise _ (db.users ++ [insertedRow db fn e p rc rb2])
    rw [List.pairwise_append]
    refine ⟨h1, List.pairwise_singleton _ _, ?_⟩
    intro a ha b hb
    rw [List.mem_singleton] at hb
    subst hb
    constructor
    · exact Nat.ne_of_lt (h2 a ha)
    · have hne : (a.email == e || a.referral_code == rc) = false := by
        simpa using hall a ha
      intro hemail
      rw [show (insertedRow db fn e p rc rb2).email = e from rfl] at hemail
      simp [hemail] at hne
  · intro u hu
    rcases List.mem_append.mp hu with h | h
    · exact Nat.lt_succ_of_lt (h2 u h)
    · rw [List.mem_singleton] at h
      subst h
      exact Nat.lt_succ_self _
  · intro a ha
    exact Nat.lt_succ_of_lt (h3 a ha)

theorem rowOf_insertedDB {db : DB} (hWF : WF db) (fn e : String) (p : Int) (rc : String)
    (rb2 : Option String) (uid : Nat) :
    rowOf (insertedDB db fn e p rc rb2) uid =
      if uid = db.next_user_id then some (insertedRow db fn e p rc rb2)
      else rowOf db uid := by
  unfold rowOf insertedDB
  rw [List.find?_append]
  by_cases h : uid = db.next_user_id
  · have hna : db.users.find? (fun u => u.user_id == uid) = none := by
      rw [List.find?_eq_none]
      intro x hx
      have hlt := hWF.2.1 x hx
      simp only [beq_iff_eq]
      omega
    rw [hna, if_pos h]
    have hb : ((insertedRow db fn e p rc rb2).user_id == uid) = true := by
      simp [insertedRow, h]
    simp [List.find?_cons, hb]
  · have hb : ((insertedRow db fn e p rc rb2).user_id == uid) = false := by
      simp [insertedRow]
      omega
    have hone : List.find? (fun u => u.user_id == uid) [insertedRow db fn e p rc rb2] = none := by
      simp [List.find?_cons, hb]
    rw [hone, Option.or_none, if_neg h]

theorem ledgerGap_insertedDB {db : DB} (hWF : WF db) (fn e : String) (p : Int) (rc : String)
    (rb2 : Option String) (uid : Nat) :
    ledgerGap (insertedDB db fn e p rc rb2) uid =
      ledgerGap db uid + (if uid = db.next_user_id then p else 0) := by
  unfold ledgerGap
  have ha : actionSum (insertedDB db fn e p rc rb2) uid = actionSum db uid := rfl
  rw [ha]
  unfold pointsOf
  rw [rowOf_insertedDB hWF]
  by_cases h : uid = db.next_user_id
  · rw [if_pos h, if_pos h]
    have hnone : rowOf db uid = none := by
      unfold rowOf
      rw [List.find?_eq_none]
      intro x hx
      have hlt := hWF.2.1 x hx
      simp only [beq_iff_eq]
      omega
    have hz : actionSum db uid = 0 := by
      apply actionSum_eq_zero
      intro a ha2
      have hlt := hWF.2.2 a ha2
      omega
    rw [hnone, hz]
    show (insertedRow db fn e p rc rb2).points - 0 = 0 - 0 + p
    show p - 0 = 0 - 0 + p
    ring
  · rw [if_neg h, if_neg h, add_zero]

theorem createUser_error_any {db : DB} {fn e : String} {p : Int} {rc : String}
    {rb2 : Option String} {msg : String}
    (h : createUser db fn e p rc rb2 = .error msg) :
    (db.users.any fun u => u.email == e || u.referral_code == rc) = true := by
  by_cases hA : (db.users.any fun u => u.email == e || u.referral_code == rc) = true
  · exact hA
  · unfold createUser at h
    rw [if_neg hA] at h
    cases h

theorem createUser_ok_any {db : DB} {fn e : String} {p : Int} {rc : String}
    {rb2 : Option String} {x : Nat × DB}
    (h : createUser db fn e p rc rb2 = .ok x) :
    (db.users.any fun u => u.email == e || u.referral_code == rc) = false ∧
    x = (db.next_user_id, insertedDB db fn e p rc rb2) := by
  by_cases hA : (db.users.any fun u => u.email == e || u.referral_code == rc) = true
  · unfold createUser at h
    rw [if_pos hA] at h
    cases h
  · have hA2 : (db.users.any fun u => u.email == e || u.referral_code == rc) = false := by
      cases hAA : (db.users.any fun u => u.email == e || u.referral_code == rc) with
      | false => rfl
      | true => exact absurd hAA hA
    unfold createUser at h
    rw [if_neg hA] at h
    cases h
    exact ⟨hA2, rfl⟩

theorem gapWF_signup (db : DB) (e fn : String) (rb : Option String) (rc : String)
    (w : Option String) (hWF : WF db) :
    WF (processSignup db e fn rb rc w).2 ∧
    ∀ uid, ledgerGap (processSignup db e fn rb rc w).2 uid =
      ledgerGap db uid + creditsOf db (.signup e fn rb rc w) uid := by
  unfold processSignup
  dsimp only
  cases hrb : (if truthy rb then rb else none) with
  | none =>
    dsimp only
    cases hcu : createUser db fn e SIGNUP_POINTS rc none with
    | error msg =>
      dsimp only
      have hAtrue := createUser_error_any hcu
      refine ⟨hWF, fun uid => ?_⟩
      simp only [creditsOf, hrb]
      rw [if_neg ?_, add_zero]
      · try dsimp only
        rw [add_zero]
      · rintro ⟨-, hf⟩
        rw [hAtrue] at hf
        cases hf
    | ok x =>
      obtain ⟨hAfalse, hx⟩ := createUser_ok_any hcu
      subst hx
      dsimp only
      refine ⟨WF_insertedDB hWF hAfalse, fun uid => ?_⟩
      rw [ledgerGap_insertedDB hWF]
      simp only [creditsOf, hrb]
      try dsimp only
      rw [zero_add]
      by_cases h : uid = db.next_user_id
      · rw [if_pos h, if_pos ⟨h, hAfalse⟩]
      · rw [if_neg h, if_neg (fun hh => h hh.1)]
  | some r =>
    dsimp only
    cases href : findUserByReferralCode db r with
    | none =>
      dsimp only
      have hnor : ∀ u ∈ db.users, u.referral_code ≠ r := by
        intro u hu
        have := List.find?_eq_none.mp href u hu
        simpa using this
      cases hcu : createUser db fn e SIGNUP_POINTS rc (some r) with
      | error msg =>
        dsimp only
        have hAtrue := createUser_error_any hcu
        refine ⟨hWF, fun uid => ?_⟩
        simp only [creditsOf, hrb]
        rw [if_neg ?_, add_zero]
        · cases hro : rowOf db uid with
          | none =>
            dsimp only
            rw [add_zero]
          | some u =>
            dsimp only
            rw [if_neg (hnor u (rowOf_mem hro).1), add_zero]
        · rintro ⟨-, hf⟩
          rw [hAtrue] at hf
          cases hf
      | ok x =>
        obtain ⟨hAfalse, hx⟩ := createUser_ok_any hcu
        subst hx
        dsimp only
        refine ⟨WF_insertedDB hWF hAfalse, fun uid => ?_⟩
        rw [ledgerGap_insertedDB hWF]
        simp only [creditsOf, hrb]
        cases hro : rowOf db uid with
        | none =>
          dsimp only
          rw [zero_add]
          by_cases h : uid = db.next_user_id
          · rw [if_pos h, if_pos ⟨h, hAfalse⟩]
          · rw [if_neg h, if_neg (fun hh => h hh.1)]
        | some u =>
          dsimp only
          rw [if_neg (hnor u (rowOf_mem hro).1), zero_add]
          by_cases h : uid = db.next_user_id
          · rw [if_pos h, if_pos ⟨h, hAfalse⟩]
          · rw [if_neg h, if_neg (fun hh => h hh.1)]
    | some referrer =>
      dsimp only
      have hWF1 : WF (addPointsByReferralCode db r REFERRER_SIGNUP_BONUS) :=
        WF_addPointsByReferralCode hWF r REFERRER_SIGNUP_BONUS
      have hanyeq := any_dup_addPointsByReferralCode db r REFERRER_SIGNUP_BONUS e rc
      cases hcu : createUser (addPointsByReferralCode db r REFERRER_SIGNUP_BONUS)
          fn e SIGNUP_POINTS rc (some r) with
      | error msg =>
        dsimp only
        have hAtrue := createUser_error_any hcu
        rw [hanyeq] at hAtrue
        refine ⟨hWF1, fun uid => ?_⟩
        rw [ledgerGap_addPointsByReferralCode]
        simp only [creditsOf, hrb]
        rw [if_neg ?_, add_zero]
        · cases hro : rowOf db uid with
          | none => dsimp only
          | some u => dsimp only
        · rintro ⟨-, hf⟩
          rw [hAtrue] at hf
          cases hf
      | ok x =>
        obtain ⟨hAfalse, hx⟩ := createUser_ok_any hcu
        subst hx
        dsimp only
        rw [hanyeq] at hAfalse
        refine ⟨WF_insertedDB hWF1 (by rw [hanyeq]; exact hAfalse), fun uid => ?_⟩
        rw [ledgerGap_insertedDB hWF1, ledgerGap_addPointsByReferralCode]
        simp only [creditsOf, hrb]
        have hnext : (addPointsByReferralCode db r REFERRER_SIGNUP_BONUS).next_user_id =
          db.next_user_id := rfl
        rw [hnext]
        cases hro : rowOf db uid with
        | none =>
          dsimp only
          rw [add_zero, zero_add]
          by_cases h : uid = db.next_user_id
          · rw [if_pos h, if_pos ⟨h, hAfalse⟩]
          · rw [if_neg h, if_neg (fun hh => h hh.1)]
        | some u =>
          dsimp only
          rw [add_assoc]
          have hif : (if uid = db.next_user_id ∧
              (db.users.any fun v => v.email == e || v.referral_code == rc) = false
              then SIGNUP_POINTS else (0 : Int)) =
              (if uid = db.next_user_id then SIGNUP_POINTS else 0) := by
            by_cases h : uid = db.next_user_id
            · have hc2 : uid = db.next_user_id ∧
                  (db.users.any fun v => v.email == e || v.referral_code == rc) = false :=
                ⟨h, hAfalse⟩
              rw [if_pos hc2, if_pos h]
            · have hc2 : ¬ (uid = db.next_user_id ∧
                  (db.users.any fun v => v.email == e || v.referral_code == rc) = false) :=
                fun hh => h hh.1
              rw [if_neg hc2, if_neg h]
          rw [hif]

theorem gapWF_usedOne (db : DB) (code : String) (hWF : WF db) :
    WF (processUsedDiscountCode db code) ∧
    ∀ uid, ledgerGap (processUsedDiscountCode db code) uid = ledgerGap db uid := by
  unfold processUsedDiscountCode
  cases hfd : findUserByDiscountCode db code with
  | none =>
    dsimp only
    exact ⟨hWF, fun _ => rfl⟩
  | some du =>
    dsimp only
    have hmem : du ∈ db.users := List.mem_of_find?_eq_some hfd
    cases parseDiscountTierFromCode code with
    | none =>
      dsimp only
      exact ⟨WF_clearUserDiscountCodeById hWF du.user_id,
        fun uid => ledgerGap_clearUserDiscountCodeById db du.user_id uid⟩
    | some t =>
      dsimp only
      by_cases ht : t = 0
      · rw [if_pos ht]
        exact ⟨WF_clearUserDiscountCodeById hWF du.user_id,
          fun uid => ledgerGap_clearUserDiscountCodeById db du.user_id uid⟩
      · rw [if_neg ht]
        refine ⟨WF_createAction (WF_clearUserDiscountCodeById hWF du.user_id)
          (hWF.2.1 du hmem) _ _ _, fun uid => ?_⟩
        rw [ledgerGap_createAction, ledgerGap_clearUserDiscountCodeById]
        by_cases h : du.user_id = uid <;> simp [h]

theorem processUsedCodes_cons (db : DB) (c : String) (rest : List String) :
    processUsedCodes db (c :: rest) = processUsedCodes
      (if c.startsWith "POINTS" || c.startsWith "MILESTONEFREE_"
       then processUsedDiscountCode db c else db) rest := by
  unfold processUsedCodes
  rw [List.foldl_cons]

theorem gapWF_usedCodes (codes : List String) (db : DB) (hWF : WF db) :
    WF (processUsedCodes db codes) ∧
    ∀ uid, ledgerGap (processUsedCodes db codes) uid = ledgerGap db uid := by
  induction codes generalizing db with
  | nil => exact ⟨hWF, fun _ => rfl⟩
  | cons c rest ih =>
    rw [processUsedCodes_cons]
    by_cases hc : (c.startsWith "POINTS" || c.startsWith "MILESTONEFREE_") = true
    · rw [if_pos hc]
      obtain ⟨hw1, hg1⟩ := gapWF_usedOne db c hWF
      obtain ⟨hw2, hg2⟩ := ih (processUsedDiscountCode db c) hw1
      exact ⟨hw2, fun uid => (hg2 uid).trans (hg1 uid)⟩
    · rw [if_neg hc]
      exact ih db hWF

theorem gapWF_bonus (db : DB) (user : User) (oid : String) (hWF : WF db) :
    WF (processFirstPurchaseReferralBonus db user oid).2 ∧
    ∀ uid, ledgerGap (processFirstPurchaseReferralBonus db user oid).2 uid =
      ledgerGap db uid := by
  unfold processFirstPurchaseReferralBonus
  by_cases ht : truthy user.referred_by
  · have ht2 : (!truthy user.referred_by) = false := by simp [ht]
    simp only [ht2, Bool.false_eq_true, if_false]
    cases href : findUserByReferralCode db (user.referred_by.getD "") with
    | none =>
      dsimp only
      exact ⟨hWF, fun _ => rfl⟩
    | some referrer =>
      dsimp only
      have hmem : referrer ∈ db.users := List.mem_of_find?_eq_some href
      refine ⟨WF_createAction (WF_incrementReferralCount
          (WF_updateUserPointsById hWF referrer.user_id
            (referrer.points + REFERRAL_BONUS_POINTS)) referrer.user_id)
          (hWF.2.1 referrer hmem) _ _ _, fun uid => ?_⟩
      rw [ledgerGap_createAction, ledgerGap_incrementReferralCount,
        ledgerGap_updateUserPointsById]
      by_cases h : uid = referrer.user_id
      · have hro : rowOf db uid = some referrer := by
          rw [h]
          exact rowOf_of_mem hWF.1 hmem
        have hpo : pointsOf db uid = referrer.points := by
          unfold pointsOf
          rw [hro]
          rfl
        simp only [hro, Option.isSome_some, and_true, if_pos h, if_pos h.symm,
          ledgerGap, hpo]
        ring
      · have h3 : ¬ (uid = referrer.user_id ∧ (rowOf db uid).isSome = true) :=
          fun hh => h hh.1
        have h4 : ¬ (referrer.user_id = uid) := fun hh => h hh.symm
        simp only [if_neg h3, if_neg h4, sub_zero]
  · have ht2 : (!truthy user.referred_by) = true := by simp [ht]
    simp only [ht2, if_true]
    exact ⟨hWF, fun _ => by trivial⟩

theorem findUserByEmail_updateUserTier (db : DB) (uidT : Nat) (t : String) (sp : ℚ)
    (e : String) :
    findUserByEmail (updateUserTier db uidT t sp) e =
      (findUserByEmail db e).map
        (fun u => if u.user_id == uidT then
          { u with tier := some t, total_spent := some sp } else u) := by
  unfold findUserByEmail updateUserTier
  exact find?_updateWhere (fun u => u.email == e) (fun u => u.user_id == uidT)
    (fun u => { u with tier := some t, total_spent := some sp }) (fun _ => rfl) db

theorem gapWF_purchase (tiers : List Tier) (db : DB) (e : String) (ot : ℚ) (oid : String)
    (codes : List String) (ts : ℚ) (hWF : WF db) :
    WF (processPurchase tiers db e ot oid codes ts).2 ∧
    ∀ uid, ledgerGap (processPurchase tiers db e ot oid codes ts).2 uid =
      ledgerGap db uid := by
  unfold processPurchase
  cases hu : findUserByEmail db e with
  | none => exact ⟨hWF, fun _ => rfl⟩
  | some user =>
    dsimp only
    cases findActionByUserAndRef db user.user_id ("order_" ++ oid) with
    | some _ => exact ⟨hWF, fun _ => rfl⟩
    | none =>
      dsimp only
      cases getTierForSpent tiers ts with
      | none => exact ⟨hWF, fun _ => rfl⟩
      | some tier =>
        dsimp only
        have humem : user ∈ db.users := List.mem_of_find?_eq_some hu
        have hWF1 : WF (updateUserTier db user.user_id tier.name ts) :=
          WF_updateUserTier hWF user.user_id tier.name ts
        have hu1 : findUserByEmail (updateUserTier db user.user_id tier.name ts) e =
            some { user with tier := some tier.name, total_spent := some ts } := by
          rw [findUserByEmail_updateUserTier, hu]
          simp
        have hWF3 : WF (createAction (updateUserPoints
            (updateUserTier db user.user_id tier.name ts) e
            (user.points + (ot * tier.pointsPerDollar).floor)) user.user_id
            "shopify_purchase" ((ot * tier.pointsPerDollar).floor)
            (some ("order_" ++ oid))) :=
          WF_createAction (WF_updateUserPoints hWF1 e _)
            (hWF1.2.1 _ (List.mem_of_find?_eq_some hu1)) _ _ _
        have hgap3 : ∀ uid, ledgerGap (createAction (updateUserPoints
            (updateUserTier db user.user_id tier.name ts) e
            (user.points + (ot * tier.pointsPerDollar).floor)) user.user_id
            "shopify_purchase" ((ot * tier.pointsPerDollar).floor)
            (some ("order_" ++ oid))) uid = ledgerGap db uid := by
          intro uid
          rw [ledgerGap_createAction, ledgerGap_updateUserPoints hWF1 hu1 _ uid]
          dsimp only
          have hgapT : ledgerGap (updateUserTier db user.user_id tier.name ts) uid =
            ledgerGap db uid := ledgerGap_updateUserTier db user.user_id tier.name ts uid
          have hsumT : actionSum (updateUserTier db user.user_id tier.name ts) uid =
            actionSum db uid := rfl
          rw [hgapT, hsumT]
          by_cases h : uid = user.user_id
          · have hpo : pointsOf db uid = user.points := by
              unfold pointsOf
              rw [h, rowOf_of_mem hWF.1 humem]
              rfl
            simp only [if_pos h, if_pos h.symm, ledgerGap, hpo]
            ring
          · have h4 : ¬ (user.user_id = uid) := fun hh => h hh.symm
            simp only [if_neg h, if_neg h4, sub_zero]
        obtain ⟨hWF4, hgap4⟩ := gapWF_usedCodes codes _ hWF3
        by_cases hfp : (findPurchaseActions db user.user_id).isEmpty = true
        · rw [if_pos hfp]
          obtain ⟨hWF5, hgap5⟩ := gapWF_bonus _ user oid hWF4
          exact ⟨hWF5, fun uid => (hgap5 uid).trans ((hgap4 uid).trans (hgap3 uid))⟩
        · rw [if_neg hfp]
          exact ⟨hWF4, fun uid => (hgap4 uid).trans (hgap3 uid)⟩

theorem gapWF_step (tiers : List Tier) (db : DB) (op : Op) (hWF : WF db) :
    WF (step tiers db op) ∧
    ∀ uid, ledgerGap (step tiers db op) uid = ledgerGap db uid + creditsOf db op uid := by
  cases op with
  | signup e fn rb rc w => exact gapWF_signup db e fn rb rc w hWF
  | award e a =>
    obtain ⟨h1, h2⟩ := gapWF_award db e a hWF
    exact ⟨h1, fun uid => by rw [show step tiers db (.award e a) =
      (processAwardPoints db e a).2 from rfl, h2 uid]; simp [creditsOf]⟩
  | redeem e p rt d =>
    obtain ⟨h1, h2⟩ := gapWF_redeem db e p rt d hWF
    exact ⟨h1, fun uid => by rw [show step tiers db (.redeem e p rt d) =
      (processRedeem db e p rt d).2 from rfl, h2 uid]; simp [creditsOf]⟩
  | cancel e p => exact gapWF_cancel db e p hWF
  | markUsed e c =>
    obtain ⟨h1, h2⟩ := gapWF_markUsed db e c hWF
    exact ⟨h1, fun uid => by rw [show step tiers db (.markUsed e c) =
      (processMarkDiscountUsed db e c).2 from rfl, h2 uid]; simp [creditsOf]⟩
  | purchase e ot oid cs ts =>
    obtain ⟨h1, h2⟩ := gapWF_purchase tiers db e ot oid cs ts hWF
    exact ⟨h1, fun uid => by rw [show step tiers db (.purchase e ot oid cs ts) =
      (processPurchase tiers db e ot oid cs ts).2 from rfl, h2 uid]; simp [creditsOf]⟩
  | milestone e m d =>
    obtain ⟨h1, h2⟩ := gapWF_milestone db e m d hWF
    exact ⟨h1, fun uid => by rw [show step tiers db (.milestone e m d) =
      (processMilestoneRedeem db e m d).2 from rfl, h2 uid]; simp [creditsOf]⟩

theorem gapWF_run (tiers : List Tier) (ops : List Op) (db : DB) (hWF : WF db) :
    WF (runOps tiers db ops) ∧
    ∀ uid, ledgerGap (runOps tiers db ops) uid =
      ledgerGap db uid + ghostCredits tiers db ops uid := by
  induction ops generalizing db with
  | nil => exact ⟨hWF, fun uid => by simp [runOps, ghostCredits]⟩
  | cons op rest ih =>
    obtain ⟨h1, h2⟩ := gapWF_step tiers db op hWF
    obtain ⟨h3, h4⟩ := ih (step tiers db op) h1
    refine ⟨h3, fun uid => ?_⟩
    show ledgerGap (runOps tiers (step tiers db op) rest) uid = _
    rw [h4 uid, h2 uid,
      show ghostCredits tiers db (op :: rest) uid =
        creditsOf db op uid + ghostCredits tiers (step tiers db op) rest uid from rfl]
    ring

theorem WF_dbInit : WF dbInit := by
  refine ⟨List.Pairwise.nil, ?_, ?_⟩ <;> intro x hx <;> cases hx

deriving instance DecidableEq for Except

/-! ## Claim theorems -/

/-- **C1, counterexample.**  The ledger-consistency invariant as stated is
false on the code: a single Signup (no referrer) leaves the new user with
the stored balance SIGNUP_POINTS = 5 while no Action row at all is
persisted, so the balance does not equal the sum of `points_awarded` over
the user's Action rows. -/
theorem c1_counterexample :
    ((runOps [] dbInit [Op.signup "a@example.com" "Alice" none "AAAAAA" none]).users.map
      User.points) = [5] ∧
    (runOps [] dbInit [Op.signup "a@example.com" "Alice" none "AAAAAA" none]).actions = [] ∧
    ¬ ∀ u ∈ (runOps [] dbInit [Op.signup "a@example.com" "Alice" none "AAAAAA" none]).users,
        u.points = actionSum
          (runOps [] dbInit [Op.signup "a@example.com" "Alice" none "AAAAAA" none])
          u.user_id := by
  refine ⟨by decide, by decide, by decide⟩

/-- **C1, amended.**  Ledger consistency holds only up to the unlogged
credits: for every user, after any sequence of the core operations
replayed from the empty database, the stored points balance equals the sum
of `points_awarded` over the user's persisted Action rows **plus** the
user's accumulated unlogged credits (`ghostCredits`): the SIGNUP_POINTS
granted at account creation, the REFERRER_SIGNUP_BONUS for each signup
whose referredBy names the user's referral code, and each CancelRedeem
refund — Signup and CancelRedeem mutate the balance without appending any
Action row, every other operation logs every point it moves. -/
theorem c1_ledger_amended (tiers : List Tier) (ops : List Op) :
    ∀ u ∈ (runOps tiers dbInit ops).users,
      u.points = actionSum (runOps tiers dbInit ops) u.user_id +
        ghostCredits tiers dbInit ops u.user_id := by
  intro u hu
  obtain ⟨hWFf, hgapf⟩ := gapWF_run tiers ops dbInit WF_dbInit
  have hrow : rowOf (runOps tiers dbInit ops) u.user_id = some u :=
    rowOf_of_mem hWFf.1 hu
  have hg := hgapf u.user_id
  rw [show ledgerGap dbInit u.user_id = 0 from rfl, zero_add] at hg
  unfold ledgerGap pointsOf at hg
  rw [hrow] at hg
  simp only [Option.elim] at hg
  omega

/-- **C1, witness.**  The amended invariant evaluated on a concrete run: a
single Signup gives the created user balance 5, action sum 0 and unlogged
credits 5. -/
theorem c1_ledger_amended_witness :
    (⟨1, "Alice", "a@example.com", 5, "AAAAAA", none, none, none, 0, none, none, none⟩ : User)
      ∈ (runOps [] dbInit [Op.signup "a@example.com" "Alice" none "AAAAAA" none]).users ∧
    (5 : Int) = actionSum
        (runOps [] dbInit [Op.signup "a@example.com" "Alice" none "AAAAAA" none]) 1 +
      ghostCredits [] dbInit [Op.signup "a@example.com" "Alice" none "AAAAAA" none] 1 :=
  ⟨by decide,
    c1_ledger_amended [] [Op.signup "a@example.com" "Alice" none "AAAAAA" none]
      ⟨1, "Alice", "a@example.com", 5, "AAAAAA", none, none, none, 0, none, none, none⟩
      (by decide)⟩

/-- **C8.**  `parseDiscountTierFromCode` returns 100 times the embedded
decimal dollar value for a code matching the `POINTS…CAD_` pattern — in
particular 1250 points for `POINTS12.5CAD_AB3F9` — and returns `none`
(JavaScript `null`, not an error: the function is total) for non-matching
input such as `MILESTONEFREE_X9Z12`. -/
theorem c8_parse_discount_tier :
    parseDiscountTierFromCode "POINTS12.5CAD_AB3F9" = some 1250 ∧
    parseDiscountTierFromCode "MILESTONEFREE_X9Z12" = none := by
  constructor
  · have h : parseDiscountTierFromCode "POINTS12.5CAD_AB3F9" =
        some ((((12 : ℕ) : ℚ) + ((5 : ℕ) : ℚ) / (10 : ℚ) ^ (1 : ℕ)) * 100) := by rfl
    rw [h]
    norm_num
  · rfl

theorem allowed_actions_ne_zero {a : String} {v : Int}
    (hv : ALLOWED_ACTIONS a = some v) : v ≠ 0 := by
  unfold ALLOWED_ACTIONS at hv
  split_ifs at hv <;> (cases hv; decide)

/-! ## Tier-engine lemmas (for C7) -/

theorem getTier_mem {tiers : List Tier} {s : ℚ} {t : Tier}
    (h : getTierForSpent tiers s = some t) : t ∈ tiers := by
  unfold getTierForSpent at h
  cases hf : tiers.reverse.find? (fun t => decide (t.minSpent ≤ s)) with
  | some t2 =>
    rw [hf] at h
    cases h
    exact List.mem_reverse.mp (List.mem_of_find?_eq_some hf)
  | none =>
    rw [hf] at h
    exact List.mem_of_mem_head? h

theorem getTier_empty (s : ℚ) : getTierForSpent [] s = none := rfl

theorem getTier_isSome {tiers : List Tier} (h : tiers ≠ []) (s : ℚ) :
    (getTierForSpent tiers s).isSome = true := by
  unfold getTierForSpent
  cases hf : tiers.reverse.find? (fun t => decide (t.minSpent ≤ s)) with
  | some t2 => rfl
  | none =>
    cases tiers with
    | nil => exact absurd rfl h
    | cons a l => rfl

theorem getTier_default {tiers : List Tier} {s : ℚ} (h : ∀ t ∈ tiers, ¬ t.minSpent ≤ s) :
    getTierForSpent tiers s = tiers.head? := by
  unfold getTierForSpent
  have hf : tiers.reverse.find? (fun t => decide (t.minSpent ≤ s)) = none := by
    rw [List.find?_eq_none]
    intro x hx
    simpa using h x (List.mem_reverse.mp hx)
  rw [hf]

theorem getTier_highest {tiers : List Tier} {s : ℚ}
    (hs : tiers.Pairwise (fun a b => a.minSpent ≤ b.minSpent))
    (hq : ∃ t2 ∈ tiers, t2.minSpent ≤ s) :
    ∃ t, getTierForSpent tiers s = some t ∧ t ∈ tiers ∧ t.minSpent ≤ s ∧
      ∀ t2 ∈ tiers, t2.minSpent ≤ s → t2.minSpent ≤ t.minSpent := by
  cases hf : tiers.reverse.find? (fun t => decide (t.minSpent ≤ s)) with
  | none =>
    exfalso
    obtain ⟨t2, ht2, hle⟩ := hq
    have hx := List.find?_eq_none.mp hf t2 (List.mem_reverse.mpr ht2)
    simp at hx
    exact absurd hle (not_le.mpr hx)
  | some t =>
    refine ⟨t, ?_, List.mem_reverse.mp (List.mem_of_find?_eq_some hf),
      by simpa using List.find?_some hf, ?_⟩
    · unfold getTierForSpent
      rw [hf]
    · obtain ⟨hpt, as, bs, hsplit, hall⟩ := List.find?_eq_some.mp hf
      intro t2 ht2 hle2
      have htiers : tiers = bs.reverse ++ t :: as.reverse := by
        have hrr : tiers.reverse.reverse = (as ++ t :: bs).reverse := by rw [hsplit]
        rw [List.reverse_reverse] at hrr
        rw [hrr]
        simp [List.reverse_append]
      rw [htiers] at ht2
      rcases List.mem_append.mp ht2 with h1 | h1
      · have hP := hs
        rw [htiers] at hP
        exact (List.pairwise_append.mp hP).2.2 t2 h1 t (List.mem_cons_self _ _)
      · rcases List.mem_cons.mp h1 with rfl | h1
        · exact le_refl _
        · exfalso
          have hx := hall t2 (List.mem_reverse.mp h1)
          simp at hx
          exact absurd hle2 (not_le.mpr hx)

theorem getTier_mono {tiers : List Tier} {s1 s2 : ℚ} {t1 t2 : Tier}
    (hs : tiers.Pairwise (fun a b => a.minSpent ≤ b.minSpent)) (h12 : s1 ≤ s2)
    (h1 : getTierForSpent tiers s1 = some t1) (h2 : getTierForSpent tiers s2 = some t2) :
    t1.minSpent ≤ t2.minSpent := by
  cases hf1 : tiers.reverse.find? (fun t => decide (t.minSpent ≤ s1)) with
  | some u =>
    have hu : u = t1 := by
      unfold getTierForSpent at h1
      rw [hf1] at h1
      cases h1
      rfl
    subst hu
    have hq1 : u.minSpent ≤ s1 := by simpa using List.find?_some hf1
    have hmem1 : u ∈ tiers := List.mem_reverse.mp (List.mem_of_find?_eq_some hf1)
    have hq2 : u.minSpent ≤ s2 := le_trans hq1 h12
    obtain ⟨t, hget, hmem, hle, hmax⟩ := getTier_highest hs ⟨u, hmem1, hq2⟩
    rw [h2] at hget
    cases hget
    exact hmax u hmem1 hq2
  | none =>
    unfold getTierForSpent at h1
    rw [hf1] at h1
    have hmem2 : t2 ∈ tiers := getTier_mem h2
    cases tiers with
    | nil => cases h1
    | cons a l =>
      have ha : a = t1 := by simpa using h1
      subst ha
      rcases List.mem_cons.mp hmem2 with rfl | hm
      · exact le_refl _
      · exact (List.pairwise_cons.mp hs).1 t2 hm

theorem getTier_zero_base {b : Tier} {rest : List Tier} (hb : b.minSpent ≤ 0)
    (hrest : ∀ t ∈ rest, 0 < t.minSpent) :
    getTierForSpent (b :: rest) 0 = some b := by
  unfold getTierForSpent
  have hf : (b :: rest).reverse.find? (fun t => decide (t.minSpent ≤ 0)) = some b := by
    rw [List.reverse_cons, List.find?_append]
    have h1 : rest.reverse.find? (fun t => decide (t.minSpent ≤ 0)) = none := by
      rw [List.find?_eq_none]
      intro x hx
      simpa using not_le.mpr (hrest x (List.mem_reverse.mp hx))
    rw [h1]
    simp [List.find?_cons, hb]
  rw [hf]

/-- **C7, counterexample.**  On the empty tier list the claim fails:
`getTierForSpent` returns JavaScript `undefined` (modelled `none`), not
the base tier — an empty list has no base tier, and `tiers[0]` on an empty
array is `undefined`. -/
theorem c7_counterexample : getTierForSpent ([] : List Tier) 0 = none := rfl

/-- **C7, amended.**  `getTierForSpent` on the empty tier list returns no
tier at all (`undefined`); for every non-empty list it returns a tier; on
a list sorted by ascending threshold it returns the highest tier whose
minimum-spend threshold is ≤ spend, defaults to the first (base) tier when
spend is below all thresholds, is monotonic non-decreasing in spend, and
returns the base tier for spend = 0 when the base threshold is ≤ 0 and the
remaining thresholds are positive. -/
theorem c7_tier_amended :
    (∀ s : ℚ, getTierForSpent [] s = none) ∧
    (∀ (tiers : List Tier) (s : ℚ), tiers ≠ [] → (getTierForSpent tiers s).isSome = true) ∧
    (∀ (tiers : List Tier) (s : ℚ),
      tiers.Pairwise (fun a b => a.minSpent ≤ b.minSpent) →
      (∃ t2 ∈ tiers, t2.minSpent ≤ s) →
      ∃ t, getTierForSpent tiers s = some t ∧ t ∈ tiers ∧ t.minSpent ≤ s ∧
        ∀ t2 ∈ tiers, t2.minSpent ≤ s → t2.minSpent ≤ t.minSpent) ∧
    (∀ (tiers : List Tier) (s : ℚ), (∀ t ∈ tiers, ¬ t.minSpent ≤ s) →
      getTierForSpent tiers s = tiers.head?) ∧
    (∀ (tiers : List Tier) (s1 s2 : ℚ) (t1 t2 : Tier),
      tiers.Pairwise (fun a b => a.minSpent ≤ b.minSpent) → s1 ≤ s2 →
      getTierForSpent tiers s1 = some t1 → getTierForSpent tiers s2 = some t2 →
      t1.minSpent ≤ t2.minSpent) ∧
    (∀ (b : Tier) (rest : List Tier), b.minSpent ≤ 0 → (∀ t ∈ rest, 0 < t.minSpent) →
      getTierForSpent (b :: rest) 0 = some b) :=
  ⟨getTier_empty,
   fun _ s h => getTier_isSome h s,
   fun _ _ hs hq => getTier_highest hs hq,
   fun _ _ h => getTier_default h,
   fun _ _ _ _ _ hs h12 h1 h2 => getTier_mono hs h12 h1 h2,
   fun _ _ hb hrest => getTier_zero_base hb hrest⟩

/-- **C7, witness.**  The amended statement evaluated on a concrete sorted
two-tier list: spend 0 yields the base tier, spend 350 yields the higher
tier, and monotonicity holds between them. -/
theorem c7_tier_amended_witness :
    getTierForSpent [(⟨"Bronze", 0, 5⟩ : Tier), ⟨"Silver", 300, 6⟩] 0 =
      some ⟨"Bronze", 0, 5⟩ ∧
    (Tier.minSpent ⟨"Bronze", 0, 5⟩ : ℚ) ≤ Tier.minSpent ⟨"Silver", 300, 6⟩ :=
  ⟨c7_tier_amended.2.2.2.2.2 ⟨"Bronze", 0, 5⟩ [⟨"Silver", 300, 6⟩] (by decide)
      (by decide),
    c7_tier_amended.2.2.2.2.1 [⟨"Bronze", 0, 5⟩, ⟨"Silver", 300, 6⟩] 0 350
      ⟨"Bronze", 0, 5⟩ ⟨"Silver", 300, 6⟩ (by decide) (by decide) (by decide) (by decide)⟩

/-! ## Redeem lemmas (for C4, C5, C6) -/

theorem findUserByEmail_idUpdate (db : DB) (uidT : Nat) (f : User → User)
    (he : ∀ u, (f u).email = u.email) (e : String) :
    findUserByEmail (updateWhere (fun u => u.user_id == uidT) f db) e =
      (findUserByEmail db e).map (fun u => if u.user_id == uidT then f u else u) :=
  find?_updateWhere (fun u => u.email == e) (fun u => u.user_id == uidT) f
    (fun u => by simp [he]) db

theorem findUserByEmail_emailUpdate (db : DB) (e0 : String) (f : User → User)
    (he : ∀ u, (f u).email = u.email) (e : String) :
    findUserByEmail (updateWhere (fun u => u.email == e0) f db) e =
      (findUserByEmail db e).map (fun u => if u.email == e0 then f u else u) :=
  find?_updateWhere (fun u => u.email == e) (fun u => u.email == e0) f
    (fun u => by simp [he]) db

theorem redeem_success_state (rt : Option String) (code did : String) {db : DB}
    {e : String} {c : Int} {u : User} (hu : findUserByEmail db e = some u)
    (hge : ¬ u.points < c) :
    (processRedeem db e c rt (some (code, did))).1 = .ok ⟨code, u.points - c⟩ ∧
    (processRedeem db e c rt (some (code, did))).2.actions =
      db.actions ++ [⟨u.user_id, redeemTypeTag rt, -c, none⟩] ∧
    findUserByEmail (processRedeem db e c rt (some (code, did))).2 e =
      some { u with points := u.points - c, last_discount_code := some code, discount_code_id := some did } := by
  unfold processRedeem
  rw [hu]
  dsimp only
  rw [if_neg hge]
  refine ⟨rfl, rfl, ?_⟩
  show findUserByEmail (updateUserDiscountCode _ u.user_id code did (u.points - c)) e = _
  unfold updateUserDiscountCode
  rw [findUserByEmail_idUpdate _ u.user_id
    (fun v => { v with last_discount_code := some code, discount_code_id := some did, points := u.points - c })
    (fun _ => rfl)]
  have h2 : findUserByEmail (createAction
      (updateUserPointsById db u.user_id (u.points - c)) u.user_id
      (redeemTypeTag rt) (-c) none) e =
      some { u with points := u.points - c } := by
    show findUserByEmail (updateUserPointsById db u.user_id (u.points - c)) e = _
    unfold updateUserPointsById
    rw [findUserByEmail_idUpdate _ u.user_id (fun v => { v with points := u.points - c })
      (fun _ => rfl), hu]
    simp
  rw [h2]
  simp

/-- **C4.**  Redeem fails with the insufficient-points error exactly when
the user exists and their balance is strictly below `pointsToRedeem`
(leaving the state unchanged); a successful Redeem returns and stores
balance `points - pointsToRedeem`, which is never negative. -/
theorem c4_redeem_insufficient (db : DB) (e : String) (c : Int) (rt : Option String)
    (d : Option (String × String)) :
    (((processRedeem db e c rt d).1 = .error "Not enough points to redeem") ↔
      (∃ u, findUserByEmail db e = some u ∧ u.points < c)) ∧
    (∀ u, findUserByEmail db e = some u → u.points < c →
      (processRedeem db e c rt d).2 = db) ∧
    (∀ u r, findUserByEmail db e = some u → (processRedeem db e c rt d).1 = .ok r →
      r.newPoints = u.points - c ∧ 0 ≤ r.newPoints ∧
      ∃ u2, findUserByEmail (processRedeem db e c rt d).2 e = some u2 ∧
        u2.points = u.points - c) := by
  refine ⟨⟨?_, ?_⟩, ?_, ?_⟩
  · intro hres
    cases hu : findUserByEmail db e with
    | none =>
      exfalso
      unfold processRedeem at hres
      rw [hu] at hres
      simp at hres
    | some u =>
      by_cases hlt : u.points < c
      · exact ⟨u, rfl, hlt⟩
      · exfalso
        unfold processRedeem at hres
        rw [hu] at hres
        dsimp only at hres
        rw [if_neg hlt] at hres
        cases d with
        | none => simp at hres
        | some cd => simp at hres
  · rintro ⟨u, hu, hlt⟩
    unfold processRedeem
    rw [hu]
    dsimp only
    rw [if_pos hlt]
  · intro u hu hlt
    unfold processRedeem
    rw [hu]
    dsimp only
    rw [if_pos hlt]
  · intro u r hu hok
    by_cases hlt : u.points < c
    · exfalso
      unfold processRedeem at hok
      rw [hu] at hok
      dsimp only at hok
      rw [if_pos hlt] at hok
      cases hok
    · cases d with
      | none =>
        exfalso
        unfold processRedeem at hok
        rw [hu] at hok
        dsimp only at hok
        rw [if_neg hlt] at hok
        simp at hok
      | some cd =>
        obtain ⟨h1, h2, h3⟩ := redeem_success_state rt cd.1 cd.2 hu hlt
        rw [show (cd.1, cd.2) = cd from rfl] at h1 h3
        rw [h1] at hok
        cases hok
        refine ⟨rfl, by dsimp only; omega, ⟨_, h3, rfl⟩⟩

/-- Concrete user row used by the claim witnesses. -/
def aliceRow : User :=
  { user_id := 1, first_name := "Alice", email := "alice@example.com", points := 100,
    referral_code := "ABC123", referred_by := none, last_discount_code := none,
    discount_code_id := none, referral_count := 0, referal_discount_code := none,
    tier := none, total_spent := none }

/-- Concrete one-user database used by the claim witnesses. -/
def dbAlice : DB := { users := [aliceRow], actions := [], next_user_id := 2 }

/-- **C4, witness.**  Alice holds 100 points: Redeem of 150 fails with the
insufficient-points error leaving the database unchanged; Redeem of 30
succeeds with new stored balance 70 ≥ 0. -/
theorem c4_redeem_insufficient_witness :
    (processRedeem dbAlice "alice@example.com" 150 none none).1 =
      .error "Not enough points to redeem" ∧
    (processRedeem dbAlice "alice@example.com" 150 none none).2 = dbAlice ∧
    ((⟨"C", 70⟩ : RedeemResult).newPoints = aliceRow.points - 30 ∧
      (0 : Int) ≤ (⟨"C", 70⟩ : RedeemResult).newPoints ∧
      ∃ u2, findUserByEmail
          (processRedeem dbAlice "alice@example.com" 30 none (some ("C", "D"))).2
          "alice@example.com" = some u2 ∧ u2.points = aliceRow.points - 30) :=
  ⟨(c4_redeem_insufficient dbAlice "alice@example.com" 150 none none).1.mpr
      ⟨aliceRow, by decide, by decide⟩,
   (c4_redeem_insufficient dbAlice "alice@example.com" 150 none none).2.1
      aliceRow (by decide) (by decide),
   (c4_redeem_insufficient dbAlice "alice@example.com" 30 none (some ("C", "D"))).2.2
      aliceRow ⟨"C", 70⟩ (by decide) (by decide)⟩

/-- **C6.**  In Redeem, the balance deduction and the negative-delta
redemption Action are committed before the discount-issuance collaborator
is called: when issuance fails, the operation fails, but the deduction and
the redemption Action are already persisted, the user's outstanding-code
fields are untouched (no code stored) and no compensating refund is
applied. -/
theorem c6_redeem_partial_commit (db : DB) (e : String) (c : Int) (rt : Option String)
    (u : User) (hu : findUserByEmail db e = some u) (hge : ¬ u.points < c) :
    (processRedeem db e c rt none).1 = .error "Failed to create discount code" ∧
    (processRedeem db e c rt none).2.actions =
      db.actions ++ [⟨u.user_id, redeemTypeTag rt, -c, none⟩] ∧
    findUserByEmail (processRedeem db e c rt none).2 e =
      some { u with points := u.points - c } := by
  unfold processRedeem
  rw [hu]
  dsimp only
  rw [if_neg hge]
  refine ⟨rfl, rfl, ?_⟩
  show findUserByEmail (updateUserPointsById db u.user_id (u.points - c)) e = _
  unfold updateUserPointsById
  rw [findUserByEmail_idUpdate _ u.user_id (fun v => { v with points := u.points - c })
    (fun _ => rfl), hu]
  simp

/-- **C6, witness.**  Failed issuance on Alice's Redeem of 30: the error
propagates while balance 70 and the `redeem-discount` action row of −30
are already persisted, and no outstanding code is stored. -/
theorem c6_redeem_partial_commit_witness :
    (processRedeem dbAlice "alice@example.com" 30 none none).1 =
      .error "Failed to create discount code" ∧
    (processRedeem dbAlice "alice@example.com" 30 none none).2.actions =
      dbAlice.actions ++ [⟨aliceRow.user_id, redeemTypeTag none, -30, none⟩] ∧
    findUserByEmail (processRedeem dbAlice "alice@example.com" 30 none none).2
      "alice@example.com" = some { aliceRow with points := aliceRow.points - 30 } :=
  c6_redeem_partial_commit dbAlice "alice@example.com" 30 none aliceRow
    (by decide) (by decide)

theorem find?_unique {l : List User} {p : User → Bool} {u : User}
    (hu : u ∈ l) (hp : p u = true) (huniq : ∀ v ∈ l, p v = true → v = u) :
    l.find? p = some u := by
  induction l with
  | nil => cases hu
  | cons a t ih =>
    cases hpa : p a with
    | true =>
      have ha : a = u := huniq a (List.mem_cons_self a t) hpa
      simp only [List.find?_cons, hpa]
      rw [ha]
    | false =>
      have hut : u ∈ t := by
        rcases List.mem_cons.mp hu with rfl | h
        · rw [hp] at hpa
          cases hpa
        · exact h
      simp only [List.find?_cons, hpa]
      exact ih hut (fun v hv hpv => huniq v (List.mem_cons_of_mem a hv) hpv)

/-- **C5.**  After a successful Redeem of cost `c`: CancelRedeem with
`pointsToRefund = c` returns the balance to its pre-redemption value and
clears the outstanding-code fields; MarkDiscountUsed with the issued code
leaves the post-redemption balance unchanged and clears the
outstanding-code fields. -/
theorem c5_redeem_cancel_markused (db : DB) (e : String) (c : Int) (rt : Option String)
    (code did : String) (u : User) (hWF : WF db) (hu : findUserByEmail db e = some u)
    (hge : ¬ u.points < c) (hcode : code ≠ "") :
    (processRedeem db e c rt (some (code, did))).1 = .ok ⟨code, u.points - c⟩ ∧
    ((processCancelRedeem (processRedeem db e c rt (some (code, did))).2 e c).1 =
        .ok ⟨u.points - c + c⟩ ∧
      ∃ u2, findUserByEmail
          (processCancelRedeem (processRedeem db e c rt (some (code, did))).2 e c).2 e =
          some u2 ∧
        u2.points = u.points ∧ u2.last_discount_code = none ∧
        u2.discount_code_id = none) ∧
    ((processMarkDiscountUsed (processRedeem db e c rt (some (code, did))).2 e code).1 =
        .ok true ∧
      ∃ u3, findUserByEmail
          (processMarkDiscountUsed (processRedeem db e c rt (some (code, did))).2 e code).2
          e = some u3 ∧
        u3.points = u.points - c ∧ u3.last_discount_code = none ∧
        u3.discount_code_id = none) := by
  obtain ⟨h1, h2, h3⟩ := redeem_success_state rt code did hu hge
  have hemail : ({ u with points := u.points - c, last_discount_code := some code, discount_code_id := some did } : User).email = u.email := rfl
  have hue : (u.email == e) = true :=
    @List.find?_some User (fun v => v.email == e) u db.users hu
  have htr : truthy (some code) = true := by
    simp [truthy, hcode]
  have heq : u.email = e := by simpa using hue
  refine ⟨h1, ⟨?_, ?_⟩, ⟨?_, ?_⟩⟩
  · unfold processCancelRedeem
    rw [h3]
    dsimp only
    rw [htr]
    rfl
  · unfold processCancelRedeem
    rw [h3]
    dsimp only
    rw [htr]
    simp only [Bool.not_true, Bool.false_eq_true, if_false]
    unfold clearUserDiscountCode updateUserPoints
    rw [findUserByEmail_emailUpdate _ e
      (fun v => { v with last_discount_code := none, discount_code_id := none })
      (fun _ => rfl)]
    rw [findUserByEmail_emailUpdate _ e
      (fun v => { v with points := u.points - c + c })
      (fun _ => rfl)]
    rw [h3]
    refine ⟨{ u with points := u.points - c + c, last_discount_code := none, discount_code_id := none }, ?_, by dsimp only; omega, rfl, rfl⟩
    simp [heq]
  · unfold processMarkDiscountUsed
    have hWF1 : WF (processRedeem db e c rt (some (code, did))).2 :=
      (gapWF_redeem db e c rt (some (code, did)) hWF).1
    have hfind : findUserByEmailAndDiscountCode (processRedeem db e c rt (some (code, did))).2
        e code = some { u with points := u.points - c, last_discount_code := some code, discount_code_id := some did } := by
      apply find?_unique (List.mem_of_find?_eq_some h3)
      · simp [hue]
      · intro v hv hpv
        have hve : v.email = e := by
          have := (Bool.and_eq_true _ _).mp hpv
          simpa using this.1
        exact email_unique hWF1 h3 hv hve
    rw [hfind]
  · unfold processMarkDiscountUsed
    have hWF1 : WF (processRedeem db e c rt (some (code, did))).2 :=
      (gapWF_redeem db e c rt (some (code, did)) hWF).1
    have hfind : findUserByEmailAndDiscountCode (processRedeem db e c rt (some (code, did))).2
        e code = some { u with points := u.points - c, last_discount_code := some code, discount_code_id := some did } := by
      apply find?_unique (List.mem_of_find?_eq_some h3)
      · simp [hue]
      · intro v hv hpv
        have hve : v.email = e := by
          have := (Bool.and_eq_true _ _).mp hpv
          simpa using this.1
        exact email_unique hWF1 h3 hv hve
    rw [hfind]
    dsimp only
    unfold clearUserDiscountCode
    rw [findUserByEmail_emailUpdate _ e
      (fun v => { v with last_discount_code := none, discount_code_id := none })
      (fun _ => rfl)]
    rw [h3]
    refine ⟨{ u with points := u.points - c, last_discount_code := none, discount_code_id := none }, ?_, rfl, rfl, rfl⟩
    simp [heq]

/-- **C5, witness.**  Alice (100 points) redeems 30 getting code `C`: a
CancelRedeem of 30 restores the balance to 100 and clears the code fields,
and a MarkDiscountUsed of `C` keeps the balance at 70 and clears the code
fields. -/
theorem c5_redeem_cancel_markused_witness :
    (processRedeem dbAlice "alice@example.com" 30 none (some ("C", "D"))).1 =
      .ok ⟨"C", aliceRow.points - 30⟩ ∧
    ((processCancelRedeem
        (processRedeem dbAlice "alice@example.com" 30 none (some ("C", "D"))).2
        "alice@example.com" 30).1 = .ok ⟨aliceRow.points - 30 + 30⟩ ∧
      ∃ u2, findUserByEmail
          (processCancelRedeem
            (processRedeem dbAlice "alice@example.com" 30 none (some ("C", "D"))).2
            "alice@example.com" 30).2 "alice@example.com" = some u2 ∧
        u2.points = aliceRow.points ∧ u2.last_discount_code = none ∧
        u2.discount_code_id = none) ∧
    ((processMarkDiscountUsed
        (processRedeem dbAlice "alice@example.com" 30 none (some ("C", "D"))).2
        "alice@example.com" "C").1 = .ok true ∧
      ∃ u3, findUserByEmail
          (processMarkDiscountUsed
            (processRedeem dbAlice "alice@example.com" 30 none (some ("C", "D"))).2
            "alice@example.com" "C").2 "alice@example.com" = some u3 ∧
        u3.points = aliceRow.points - 30 ∧ u3.last_discount_code = none ∧
        u3.discount_code_id = none) :=
  c5_redeem_cancel_markused dbAlice "alice@example.com" 30 none "C" "D" aliceRow
    (by refine ⟨?_, ?_, ?_⟩ <;> decide) (by decide) (by decide) (by decide)

theorem award_success (db : DB) (email action : String) (v : Int) (u : User)
    (hv : ALLOWED_ACTIONS action = some v) (hu : findUserByEmail db email = some u)
    (hnone : findActionByUserAndType db u.user_id action = none) :
    processAwardPoints db email action =
      (.ok ⟨v, u.points + v⟩,
        createAction (updateUserPoints db email (u.points + v)) u.user_id action v none) := by
  unfold processAwardPoints
  rw [hv]
  dsimp only
  rw [if_neg (allowed_actions_ne_zero hv)]
  rw [hu]
  dsimp only
  rw [hnone]

theorem award_stuck (db : DB) (email action : String) (v : Int) (u : User) (a : Action)
    (hv : ALLOWED_ACTIONS action = some v) (hu : findUserByEmail db email = some u)
    (ha : findActionByUserAndType db u.user_id action = some a) :
    processAwardPoints db email action =
      (.error "Points already claimed for this action", db) := by
  unfold processAwardPoints
  rw [hv]
  dsimp only
  rw [if_neg (allowed_actions_ne_zero hv)]
  rw [hu]
  dsimp only
  rw [ha]

theorem awardIter_stuck (email action : String) (db : DB)
    (h : processAwardPoints db email action =
      (.error "Points already claimed for this action", db)) :
    ∀ n, awardIter email action n db =
      (List.replicate n (.error "Points already claimed for this action"), db) := by
  intro n
  induction n with
  | zero => rfl
  | succ k ih =>
    show ((processAwardPoints db email action).1 ::
        (awardIter email action k (processAwardPoints db email action).2).1,
      (awardIter email action k (processAwardPoints db email action).2).2) = _
    rw [h]
    dsimp only
    rw [ih]
    rfl

/-- **C2.**  In a run of `n + 1` successive AwardPoints calls with the same
whitelisted (email, actionType) pair against a user with no prior Action of
that type, exactly the first call succeeds — adding the whitelisted value to
the balance — and all `n` replays fail with the already-claimed error; the
final state carries exactly one appended Action of that type and the balance
of the single successful award. -/
theorem c2_award_exactly_once (db : DB) (email action : String) (v : Int) (u : User)
    (n : Nat) (hv : ALLOWED_ACTIONS action = some v)
    (hu : findUserByEmail db email = some u)
    (hnone : findActionByUserAndType db u.user_id action = none) :
    (awardIter email action (n + 1) db).1 =
      .ok ⟨v, u.points + v⟩ ::
        List.replicate n (.error "Points already claimed for this action") ∧
    (awardIter email action (n + 1) db).2.actions =
      db.actions ++ [⟨u.user_id, action, v, none⟩] ∧
    findUserByEmail (awardIter email action (n + 1) db).2 email =
      some { u with points := u.points + v } := by
  have hue : (u.email == email) = true :=
    @List.find?_some User (fun w => w.email == email) u db.users hu
  have heq : u.email = email := by simpa using hue
  have hs := award_success db email action v u hv hu hnone
  have hu2 : findUserByEmail
      (createAction (updateUserPoints db email (u.points + v)) u.user_id action v none)
      email = some { u with points := u.points + v } := by
    show findUserByEmail (updateUserPoints db email (u.points + v)) email = _
    unfold updateUserPoints
    rw [findUserByEmail_emailUpdate _ email (fun w => { w with points := u.points + v })
      (fun _ => rfl)]
    rw [hu]
    simp [heq]
  have hfa2 : findActionByUserAndType
      (createAction (updateUserPoints db email (u.points + v)) u.user_id action v none)
      ({ u with points := u.points + v } : User).user_id action =
      some ⟨u.user_id, action, v, none⟩ := by
    show findActionByUserAndType
      (createAction (updateUserPoints db email (u.points + v)) u.user_id action v none)
      u.user_id action = _
    have h1 := hnone
    unfold findActionByUserAndType at h1 ⊢
    unfold createAction updateUserPoints updateWhere
    dsimp only
    rw [List.find?_append, h1]
    simp
  have hstuck : processAwardPoints
      (createAction (updateUserPoints db email (u.points + v)) u.user_id action v none)
      email action =
      (.error "Points already claimed for this action",
        createAction (updateUserPoints db email (u.points + v)) u.user_id action v none) :=
    award_stuck _ email action v { u with points := u.points + v }
      ⟨u.user_id, action, v, none⟩ hv hu2 hfa2
  have hiter := awardIter_stuck email action
    (createAction (updateUserPoints db email (u.points + v)) u.user_id action v none)
    hstuck n
  have hstep : awardIter email action (n + 1) db =
      ((processAwardPoints db email action).1 ::
        (awardIter email action n (processAwardPoints db email action).2).1,
      (awardIter email action n (processAwardPoints db email action).2).2) := rfl
  rw [hstep, hs]
  dsimp only
  rw [hiter]
  refine ⟨rfl, ?_, hu2⟩
  show (createAction (updateUserPoints db email (u.points + v)) u.user_id action v none).actions = _
  unfold createAction updateUserPoints updateWhere
  rfl

/-- **C2, witness.**  Alice (100 points) claims the `share` action twice:
the first call awards 5 points (new balance 105, one `share` Action row),
the replay fails with the already-claimed error and changes nothing. -/
theorem c2_award_exactly_once_witness :
    (awardIter "alice@example.com" "share" (1 + 1) dbAlice).1 =
      .ok ⟨5, aliceRow.points + 5⟩ ::
        List.replicate 1 (.error "Points already claimed for this action") ∧
    (awardIter "alice@example.com" "share" (1 + 1) dbAlice).2.actions =
      dbAlice.actions ++ [⟨aliceRow.user_id, "share", 5, none⟩] ∧
    findUserByEmail (awardIter "alice@example.com" "share" (1 + 1) dbAlice).2
      "alice@example.com" = some { aliceRow with points := aliceRow.points + 5 } :=
  c2_award_exactly_once dbAlice "alice@example.com" "share" 5 aliceRow 1
    (by decide) (by decide) (by decide)

theorem keep_updateWhere {db : DB} {e : String} {u : User} (test : User → Bool)
    (f : User → User) (he : ∀ w, (f w).email = w.email)
    (hid : ∀ w, (f w).user_id = w.user_id)
    (hu : findUserByEmail db e = some u) :
    ∃ u2, findUserByEmail (updateWhere test f db) e = some u2 ∧
      u2.user_id = u.user_id := by
  unfold findUserByEmail at hu ⊢
  rw [find?_updateWhere (fun w => w.email == e) test f (fun w => by simp [he]) db, hu]
  by_cases h : test u = true
  · exact ⟨f u, by simp [h], hid u⟩
  · exact ⟨u, by simp [h], rfl⟩

theorem keep_updateUserTier (uidT : Nat) (t : String) (sp : ℚ) {db : DB} {e : String}
    {u : User} (hu : findUserByEmail db e = some u) :
    ∃ u2, findUserByEmail (updateUserTier db uidT t sp) e = some u2 ∧
      u2.user_id = u.user_id := by
  unfold updateUserTier
  exact keep_updateWhere _ _ (fun _ => rfl) (fun _ => rfl) hu

theorem keep_updateUserPoints (e0 : String) (p : Int) {db : DB} {e : String}
    {u : User} (hu : findUserByEmail db e = some u) :
    ∃ u2, findUserByEmail (updateUserPoints db e0 p) e = some u2 ∧
      u2.user_id = u.user_id := by
  unfold updateUserPoints
  exact keep_updateWhere _ _ (fun _ => rfl) (fun _ => rfl) hu

theorem keep_updateUserPointsById (uidT : Nat) (p : Int) {db : DB} {e : String}
    {u : User} (hu : findUserByEmail db e = some u) :
    ∃ u2, findUserByEmail (updateUserPointsById db uidT p) e = some u2 ∧
      u2.user_id = u.user_id := by
  unfold updateUserPointsById
  exact keep_updateWhere _ _ (fun _ => rfl) (fun _ => rfl) hu

theorem keep_incrementReferralCount (uidT : Nat) {db : DB} {e : String}
    {u : User} (hu : findUserByEmail db e = some u) :
    ∃ u2, findUserByEmail (incrementReferralCount db uidT) e = some u2 ∧
      u2.user_id = u.user_id := by
  unfold incrementReferralCount
  exact keep_updateWhere _ _ (fun _ => rfl) (fun _ => rfl) hu

theorem keep_clearUserDiscountCodeById (uidT : Nat) {db : DB} {e : String}
    {u : User} (hu : findUserByEmail db e = some u) :
    ∃ u2, findUserByEmail (clearUserDiscountCodeById db uidT) e = some u2 ∧
      u2.user_id = u.user_id := by
  unfold clearUserDiscountCodeById
  exact keep_updateWhere _ _ (fun _ => rfl) (fun _ => rfl) hu

theorem keep_usedOne (code : String) {db : DB} {e : String} {u : User}
    (hu : findUserByEmail db e = some u) :
    ∃ u2, findUserByEmail (processUsedDiscountCode db code) e = some u2 ∧
      u2.user_id = u.user_id := by
  unfold processUsedDiscountCode
  cases hfd : findUserByDiscountCode db code with
  | none =>
    dsimp only
    exact ⟨u, hu, rfl⟩
  | some du =>
    dsimp only
    cases parseDiscountTierFromCode code with
    | none =>
      dsimp only
      exact keep_clearUserDiscountCodeById du.user_id hu
    | some t =>
      dsimp only
      by_cases ht : t = 0
      · rw [if_pos ht]
        exact keep_clearUserDiscountCodeById du.user_id hu
      · rw [if_neg ht]
        exact keep_clearUserDiscountCodeById du.user_id hu

theorem keep_usedCodes (codes : List String) :
    ∀ {db : DB} {e : String} {u : User}, findUserByEmail db e = some u →
    ∃ u2, findUserByEmail (processUsedCodes db codes) e = some u2 ∧
      u2.user_id = u.user_id := by
  induction codes with
  | nil => exact fun hu => ⟨_, hu, rfl⟩
  | cons c rest ih =>
    intro db e u hu
    rw [processUsedCodes_cons]
    by_cases hc : (c.startsWith "POINTS" || c.startsWith "MILESTONEFREE_") = true
    · rw [if_pos hc]
      obtain ⟨u1, h1, e1⟩ := keep_usedOne c hu
      obtain ⟨u2, h2, e2⟩ := ih h1
      exact ⟨u2, h2, e2.trans e1⟩
    · rw [if_neg hc]
      exact ih hu

theorem keep_bonus (user : User) (oid : String) {db : DB} {e : String} {u : User}
    (hu : findUserByEmail db e = some u) :
    ∃ u2, findUserByEmail (processFirstPurchaseReferralBonus db user oid).2 e = some u2 ∧
      u2.user_id = u.user_id := by
  unfold processFirstPurchaseReferralBonus
  cases htr : truthy user.referred_by with
  | false =>
    dsimp only
    rw [if_pos (show (!false) = true from rfl)]
    exact ⟨u, hu, rfl⟩
  | true =>
    dsimp only
    rw [if_neg (show ¬ ((!true) = true) from by decide)]
    cases hfr : findUserByReferralCode db (user.referred_by.getD "") with
    | none =>
      dsimp only
      exact ⟨u, hu, rfl⟩
    | some referrer =>
      dsimp only
      obtain ⟨u1, h1, e1⟩ :=
        keep_updateUserPointsById referrer.user_id (referrer.points + REFERRAL_BONUS_POINTS) hu
      obtain ⟨u2, h2, e2⟩ := keep_incrementReferralCount referrer.user_id h1
      exact ⟨u2, h2, e2.trans e1⟩

theorem actions_usedOne (db : DB) (code : String) :
    ∃ t, (processUsedDiscountCode db code).actions = db.actions ++ t := by
  unfold processUsedDiscountCode
  cases hfd : findUserByDiscountCode db code with
  | none =>
    dsimp only
    exact ⟨[], by simp⟩
  | some du =>
    dsimp only
    cases parseDiscountTierFromCode code with
    | none =>
      dsimp only
      exact ⟨[], by simp [clearUserDiscountCodeById, updateWhere]⟩
    | some t =>
      dsimp only
      by_cases ht : t = 0
      · rw [if_pos ht]
        exact ⟨[], by simp [clearUserDiscountCodeById, updateWhere]⟩
      · rw [if_neg ht]
        refine ⟨[⟨du.user_id, "discount_tier_used", 0, some ("tier_" ++ toString t)⟩], ?_⟩
        simp [createAction, clearUserDiscountCodeById, updateWhere]

theorem actions_usedCodes (codes : List String) :
    ∀ db : DB, ∃ t, (processUsedCodes db codes).actions = db.actions ++ t := by
  induction codes with
  | nil => exact fun db => ⟨[], by simp [processUsedCodes]⟩
  | cons c rest ih =>
    intro db
    rw [processUsedCodes_cons]
    by_cases hc : (c.startsWith "POINTS" || c.startsWith "MILESTONEFREE_") = true
    · rw [if_pos hc]
      obtain ⟨t1, h1⟩ := actions_usedOne db c
      obtain ⟨t2, h2⟩ := ih (processUsedDiscountCode db c)
      exact ⟨t1 ++ t2, by rw [h2, h1, List.append_assoc]⟩
    · rw [if_neg hc]
      exact ih db

theorem actions_bonus (db : DB) (user : User) (oid : String) :
    ∃ t, (processFirstPurchaseReferralBonus db user oid).2.actions = db.actions ++ t := by
  unfold processFirstPurchaseReferralBonus
  cases htr : truthy user.referred_by with
  | false =>
    dsimp only
    rw [if_pos (show (!false) = true from rfl)]
    exact ⟨[], by simp⟩
  | true =>
    dsimp only
    rw [if_neg (show ¬ ((!true) = true) from by decide)]
    cases hfr : findUserByReferralCode db (user.referred_by.getD "") with
    | none =>
      dsimp only
      exact ⟨[], by simp⟩
    | some referrer =>
      dsimp only
      refine ⟨[⟨referrer.user_id, "referral_first_purchase_bonus", REFERRAL_BONUS_POINTS,
        some ("referral_" ++ toString user.user_id ++ "_order_" ++ oid)⟩], ?_⟩
      simp [createAction, incrementReferralCount, updateUserPointsById, updateWhere]

theorem purchase_first {tiers : List Tier} {db : DB} {email : String} {ot : ℚ}
    {oid : String} {cs : List String} {ts : ℚ} {u : User} {tier : Tier}
    (hu : findUserByEmail db email = some u)
    (hno : findActionByUserAndRef db u.user_id ("order_" ++ oid) = none)
    (ht : getTierForSpent tiers ts = some tier) :
    (∃ r, (processPurchase tiers db email ot oid cs ts).1 = .ok (.ok r) ∧
      r.pointsAwarded = (ot * tier.pointsPerDollar).floor ∧
      r.newPoints = u.points + (ot * tier.pointsPerDollar).floor) ∧
    (∃ t, (processPurchase tiers db email ot oid cs ts).2.actions =
      db.actions ++ (⟨u.user_id, "shopify_purchase", (ot * tier.pointsPerDollar).floor,
        some ("order_" ++ oid)⟩ : Action) :: t) ∧
    (∃ u2, findUserByEmail (processPurchase tiers db email ot oid cs ts).2 email =
      some u2 ∧ u2.user_id = u.user_id) := by
  unfold processPurchase
  rw [hu]
  dsimp only
  rw [hno]
  dsimp only
  rw [ht]
  dsimp only
  have hkeep3 : ∃ u2, findUserByEmail
      (createAction (updateUserPoints (updateUserTier db u.user_id tier.name ts) email
        (u.points + (ot * tier.pointsPerDollar).floor)) u.user_id "shopify_purchase"
        ((ot * tier.pointsPerDollar).floor) (some ("order_" ++ oid))) email = some u2 ∧
      u2.user_id = u.user_id := by
    obtain ⟨u1, h1, e1⟩ := keep_updateUserTier u.user_id tier.name ts hu
    obtain ⟨u2, h2, e2⟩ := keep_updateUserPoints email
      (u.points + (ot * tier.pointsPerDollar).floor) h1
    exact ⟨u2, h2, e2.trans e1⟩
  have hact3 : (createAction (updateUserPoints (updateUserTier db u.user_id tier.name ts)
      email (u.points + (ot * tier.pointsPerDollar).floor)) u.user_id "shopify_purchase"
      ((ot * tier.pointsPerDollar).floor) (some ("order_" ++ oid))).actions =
      db.actions ++ [(⟨u.user_id, "shopify_purchase", (ot * tier.pointsPerDollar).floor,
        some ("order_" ++ oid)⟩ : Action)] := rfl
  obtain ⟨u3, h3, e3⟩ := hkeep3
  obtain ⟨t4, h4⟩ := actions_usedCodes cs
    (createAction (updateUserPoints (updateUserTier db u.user_id tier.name ts) email
      (u.points + (ot * tier.pointsPerDollar).floor)) u.user_id "shopify_purchase"
      ((ot * tier.pointsPerDollar).floor) (some ("order_" ++ oid)))
  obtain ⟨u4, hk4, e4⟩ := keep_usedCodes cs h3
  cases hfp : (findPurchaseActions db u.user_id).isEmpty with
  | false =>
    rw [if_neg Bool.false_ne_true]
    refine ⟨⟨_, rfl, rfl, rfl⟩, ⟨t4, ?_⟩, ⟨u4, hk4, e4.trans e3⟩⟩
    rw [h4, hact3, List.append_assoc]
    rfl
  | true =>
    rw [if_pos rfl]
    obtain ⟨t5, h5⟩ := actions_bonus
      (processUsedCodes (createAction (updateUserPoints (updateUserTier db u.user_id
        tier.name ts) email (u.points + (ot * tier.pointsPerDollar).floor)) u.user_id
        "shopify_purchase" ((ot * tier.pointsPerDollar).floor) (some ("order_" ++ oid))) cs)
      u oid
    obtain ⟨u5, hk5, e5⟩ := keep_bonus u oid hk4
    refine ⟨⟨_, rfl, rfl, rfl⟩, ⟨t4 ++ t5, ?_⟩, ⟨u5, hk5, (e5.trans e4).trans e3⟩⟩
    rw [h5, h4, hact3, List.append_assoc, List.append_assoc]
    rfl

theorem purchase_skips {tiers : List Tier} {db : DB} {email : String} {ot : ℚ}
    {oid : String} {cs : List String} {ts : ℚ} {u2 : User} {a : Action}
    (hu2 : findUserByEmail db email = some u2)
    (ha : findActionByUserAndRef db u2.user_id ("order_" ++ oid) = some a) :
    processPurchase tiers db email ot oid cs ts =
      (.ok (.skipped "Order already processed"), db) := by
  unfold processPurchase
  rw [hu2]
  dsimp only
  rw [ha]

/-- **C3.**  Among successive ProcessPurchase calls with the same
(email, orderId): the first call (user present, order not yet logged, a
tier configured) awards the tier-computed points and appends the
`shopify_purchase` Action keyed `order_<orderId>`; the replay against the
resulting state returns the skipped result "Order already processed" — a
normal return, not an error — with the entire database unchanged; and a
call for an email with no matching user returns the skipped result "User
not in referral program" with the database unchanged. -/
theorem c3_purchase_idempotent (tiers : List Tier) (db : DB) (email : String) (ot : ℚ)
    (oid : String) (cs : List String) (ts : ℚ) (ot2 : ℚ) (cs2 : List String) (ts2 : ℚ)
    (u : User) (tier : Tier) (hu : findUserByEmail db email = some u)
    (hno : findActionByUserAndRef db u.user_id ("order_" ++ oid) = none)
    (ht : getTierForSpent tiers ts = some tier) :
    (∃ r, (processPurchase tiers db email ot oid cs ts).1 = .ok (.ok r) ∧
      r.pointsAwarded = (ot * tier.pointsPerDollar).floor ∧
      r.newPoints = u.points + (ot * tier.pointsPerDollar).floor) ∧
    (∃ t, (processPurchase tiers db email ot oid cs ts).2.actions =
      db.actions ++ (⟨u.user_id, "shopify_purchase", (ot * tier.pointsPerDollar).floor,
        some ("order_" ++ oid)⟩ : Action) :: t) ∧
    processPurchase tiers (processPurchase tiers db email ot oid cs ts).2 email ot2 oid
      cs2 ts2 = (.ok (.skipped "Order already processed"),
        (processPurchase tiers db email ot oid cs ts).2) ∧
    (∀ db0 e0, findUserByEmail db0 e0 = none →
      processPurchase tiers db0 e0 ot oid cs ts =
        (.ok (.skipped "User not in referral program"), db0)) := by
  obtain ⟨hr, ⟨t, hact⟩, ⟨u2, hu2, hid2⟩⟩ := purchase_first hu hno ht
  refine ⟨hr, ⟨t, hact⟩, ?_, ?_⟩
  · have hfind : findActionByUserAndRef (processPurchase tiers db email ot oid cs ts).2
        u2.user_id ("order_" ++ oid) =
        some ⟨u.user_id, "shopify_purchase", (ot * tier.pointsPerDollar).floor,
          some ("order_" ++ oid)⟩ := by
      unfold findActionByUserAndRef
      rw [hact, hid2, List.find?_append]
      have h0 : db.actions.find?
          (fun a => a.user_id == u.user_id && a.action_ref == some ("order_" ++ oid)) =
          none := hno
      rw [h0, Option.none_or]
      simp [List.find?]
    exact purchase_skips hu2 hfind
  · intro db0 e0 h0
    unfold processPurchase
    rw [h0]

/-- **C3, witness.**  With a single base tier (1 point per dollar, threshold
0), Alice's first $10 order `o1` awards 10 points and logs the
`order_o1` purchase Action; the replayed webhook is skipped with the state
untouched, and a purchase for an unknown email is skipped. -/
theorem c3_purchase_idempotent_witness :
    (∃ r, (processPurchase [⟨"Bronze", 0, 1⟩] dbAlice "alice@example.com" 10 "o1" [] 0).1 =
        .ok (.ok r) ∧
      r.pointsAwarded = ((10 : ℚ) * (⟨"Bronze", 0, 1⟩ : Tier).pointsPerDollar).floor ∧
      r.newPoints = aliceRow.points +
        ((10 : ℚ) * (⟨"Bronze", 0, 1⟩ : Tier).pointsPerDollar).floor) ∧
    (∃ t, (processPurchase [⟨"Bronze", 0, 1⟩] dbAlice "alice@example.com" 10 "o1" [] 0).2.actions =
      dbAlice.actions ++ (⟨aliceRow.user_id, "shopify_purchase",
        ((10 : ℚ) * (⟨"Bronze", 0, 1⟩ : Tier).pointsPerDollar).floor,
        some ("order_" ++ "o1")⟩ : Action) :: t) ∧
    processPurchase [⟨"Bronze", 0, 1⟩]
      (processPurchase [⟨"Bronze", 0, 1⟩] dbAlice "alice@example.com" 10 "o1" [] 0).2
      "alice@example.com" 10 "o1" [] 0 =
      (.ok (.skipped "Order already processed"),
        (processPurchase [⟨"Bronze", 0, 1⟩] dbAlice "alice@example.com" 10 "o1" [] 0).2) ∧
    (∀ db0 e0, findUserByEmail db0 e0 = none →
      processPurchase [⟨"Bronze", 0, 1⟩] db0 e0 10 "o1" [] 0 =
        (.ok (.skipped "User not in referral program"), db0)) :=
  c3_purchase_idempotent [⟨"Bronze", 0, 1⟩] dbAlice "alice@example.com" 10 "o1" [] 0
    10 [] 0 aliceRow ⟨"Bronze", 0, 1⟩ (by decide) rfl (by decide)

/-- **C10.**  A user whose stored milestone ledger (`referal_discount_code`)
is non-empty but unparseable does not make MilestoneRedeem fail: the parse
error is swallowed and the ledger treated as empty, so any qualifying
threshold passes the already-redeemed gate, a fresh discount code is
issued, and the stored ledger is overwritten with a one-entry ledger that
discards the previous contents. -/
theorem c10_milestone_corrupt_ledger (db : DB) (e : String) (m : Nat) (code : String)
    (reward : MilestoneReward) (u : User) (s : String)
    (hm : MILESTONE_REWARDS m = some reward)
    (hu : findUserByEmail db e = some u)
    (hrc : ¬ u.referral_count < m)
    (hs : u.referal_discount_code = some s) (hne : s ≠ "")
    (hbad : parseMilestoneLedger s = none) :
    (processMilestoneRedeem db e m (some code)).1 = .ok ⟨reward.name, code⟩ ∧
    ∃ u2, findUserByEmail (processMilestoneRedeem db e m (some code)).2 e = some u2 ∧
      u2.referal_discount_code = some (stringifyMilestoneLedger [(m, code)]) := by
  have hue : (u.email == e) = true :=
    @List.find?_some User (fun w => w.email == e) u db.users hu
  unfold processMilestoneRedeem
  rw [hm]
  dsimp only
  rw [hu]
  dsimp only
  rw [if_neg hrc]
  rw [hs]
  dsimp only
  rw [if_neg hne, hbad]
  simp only [Option.getD_none, List.lookup_nil]
  rw [if_neg (show ¬ (truthy none = true) from by simp [truthy])]
  dsimp only
  refine ⟨rfl, ?_⟩
  unfold updateMilestoneDiscountCodes
  rw [findUserByEmail_idUpdate _ u.user_id
    (fun w => { w with referal_discount_code := some (stringifyMilestoneLedger (insertLedger m code [])) })
    (fun _ => rfl)]
  rw [hu]
  refine ⟨{ u with referal_discount_code := some (stringifyMilestoneLedger (insertLedger m code [])) }, ?_, rfl⟩
  simp

/-- Concrete user row with a corrupt (non-JSON) milestone-ledger string,
used by the C10 witness. -/
def corruptRow : User :=
  { user_id := 1, first_name := "Bob", email := "bob@example.com", points := 0,
    referral_code := "BOB123", referred_by := none, last_discount_code := none,
    discount_code_id := none, referral_count := 5,
    referal_discount_code := some "LEGACYCODE", tier := none, total_spent := none }

/-- Concrete one-user database with the corrupt ledger row. -/
def dbCorrupt : DB := { users := [corruptRow], actions := [], next_user_id := 2 }

/-- **C10, witness.**  Bob's ledger column holds the legacy non-JSON string
`LEGACYCODE`; at 5 referrals the 5-milestone redeem succeeds anyway (reward
"Free Notebook", fresh code `NEW5`) and the stored ledger is replaced by
the one-entry JSON ledger for milestone 5. -/
theorem c10_milestone_corrupt_ledger_witness :
    (processMilestoneRedeem dbCorrupt "bob@example.com" 5 (some "NEW5")).1 =
      .ok ⟨(⟨"Free Notebook", "gid://shopify/Collection/410265616628"⟩ :
        MilestoneReward).name, "NEW5"⟩ ∧
    ∃ u2, findUserByEmail
        (processMilestoneRedeem dbCorrupt "bob@example.com" 5 (some "NEW5")).2
        "bob@example.com" = some u2 ∧
      u2.referal_discount_code = some (stringifyMilestoneLedger [(5, "NEW5")]) :=
  c10_milestone_corrupt_ledger dbCorrupt "bob@example.com" 5 "NEW5"
    ⟨"Free Notebook", "gid://shopify/Collection/410265616628"⟩ corruptRow "LEGACYCODE"
    (by decide) (by decide) (by decide) rfl (by decide) (by decide)

/-- **C9, counterexample.**  `toString` is not a configured whitelist key,
yet AwardPoints does not fail with the InvalidAction error: the inherited
`Object.prototype.toString` is truthy, the gate passes, and the call
proceeds to the user lookup, failing with "User not found" instead. -/
theorem c9_counterexample :
    ALLOWED_ACTIONS "toString" = none ∧
    (processAwardPoints dbAlice "bob@example.com" "toString").1 ≠
      .error "Invalid action type" ∧
    processAwardPoints dbAlice "bob@example.com" "toString" =
      (.error "User not found", dbAlice) := by
  decide

/-- **C9, amended.**  `processAwardPoints` fails with the InvalidAction
error exactly when the actionType is neither a configured whitelist key
nor a property name inherited from `Object.prototype`; in that case it
fails before any lookup or mutation, the database unchanged.  For an
inherited name the truthiness gate passes: the call never returns the
InvalidAction error, proceeds to the user lookup (erroring "User not
found" on an unknown email), and in every case leaves the database
unchanged. -/
theorem c9_award_invalid_action_amended (db : DB) (email action : String) :
    ((processAwardPoints db email action).1 = .error "Invalid action type" ↔
      (ALLOWED_ACTIONS action = none ∧ action ∉ OBJECT_PROTOTYPE_KEYS)) ∧
    ((ALLOWED_ACTIONS action = none ∧ action ∉ OBJECT_PROTOTYPE_KEYS) →
      (processAwardPoints db email action).2 = db) ∧
    (action ∈ OBJECT_PROTOTYPE_KEYS → ALLOWED_ACTIONS action = none →
      (processAwardPoints db email action).1 ≠ .error "Invalid action type" ∧
      (processAwardPoints db email action).2 = db ∧
      (findUserByEmail db email = none →
        processAwardPoints db email action = (.error "User not found", db))) := by
  unfold processAwardPoints
  cases hA : ALLOWED_ACTIONS action with
  | none =>
    dsimp only
    by_cases hp : action ∈ OBJECT_PROTOTYPE_KEYS
    · rw [if_pos hp]
      cases hfu : findUserByEmail db email with
      | none =>
        dsimp only
        exact ⟨⟨fun hres => by simp at hres, fun h => absurd hp h.2⟩,
          fun h => absurd hp h.2,
          fun _ _ => ⟨by simp, rfl, fun _ => rfl⟩⟩
      | some user =>
        dsimp only
        cases hfa : findActionByUserAndType db user.user_id action with
        | some _ =>
          dsimp only
          exact ⟨⟨fun hres => by simp at hres, fun h => absurd hp h.2⟩,
            fun h => absurd hp h.2,
            fun _ _ => ⟨by simp, rfl, fun hnone => (nomatch hnone)⟩⟩
        | none =>
          dsimp only
          exact ⟨⟨fun hres => by simp at hres, fun h => absurd hp h.2⟩,
            fun h => absurd hp h.2,
            fun _ _ => ⟨by simp, rfl, fun hnone => (nomatch hnone)⟩⟩
    · rw [if_neg hp]
      exact ⟨⟨fun _ => ⟨rfl, hp⟩, fun _ => rfl⟩, fun _ => rfl, fun hin => absurd hin hp⟩
  | some v =>
    dsimp only
    have hv0 : v ≠ 0 := allowed_actions_ne_zero hA
    rw [if_neg hv0]
    refine ⟨⟨fun hres => ?_, fun h => (nomatch h.1)⟩,
      ⟨fun h => (nomatch h.1), fun _ hnone => nomatch hnone⟩⟩
    exfalso
    revert hres
    cases findUserByEmail db email with
    | none =>
      intro hres
      simp at hres
    | some user =>
      intro hres
      dsimp only at hres
      cases h2 : findActionByUserAndType db user.user_id action with
      | some _ =>
        rw [h2] at hres
        simp at hres
      | none =>
        rw [h2] at hres
        simp at hres

/-- **C9, amended witness.**  The amended characterization at concrete
inputs: `bogus_action` (neither configured nor inherited) is rejected with
InvalidAction and an untouched database, while the inherited name
`toString` passes the gate against the empty database and reaches the user
lookup. -/
theorem c9_award_invalid_action_amended_witness :
    ((processAwardPoints dbInit "a@example.com" "bogus_action").1 =
        .error "Invalid action type" ↔
      (ALLOWED_ACTIONS "bogus_action" = none ∧
        "bogus_action" ∉ OBJECT_PROTOTYPE_KEYS)) ∧
    ((ALLOWED_ACTIONS "bogus_action" = none ∧
        "bogus_action" ∉ OBJECT_PROTOTYPE_KEYS) →
      (processAwardPoints dbInit "a@example.com" "bogus_action").2 = dbInit) ∧
    ("bogus_action" ∈ OBJECT_PROTOTYPE_KEYS →
      ALLOWED_ACTIONS "bogus_action" = none →
      (processAwardPoints dbInit "a@example.com" "bogus_action").1 ≠
        .error "Invalid action type" ∧
      (processAwardPoints dbInit "a@example.com" "bogus_action").2 = dbInit ∧
      (findUserByEmail dbInit "a@example.com" = none →
        processAwardPoints dbInit "a@example.com" "bogus_action" =
          (.error "User not found", dbInit))) :=
  c9_award_invalid_action_amended dbInit "a@example.com" "bogus_action"

end Referral
